import Mathlib

/-!
Shallow embedding of the matchmaking and session engine of
`src/app/src/server.ts` (the variant at lines 1000-1745: branded types,
`findMatch`, `checkMessageRateLimit`, `endRoom` and the socket handlers).

JavaScript strings are modelled as `List Char`; JavaScript `Map` and `Set`
are modelled as insertion-ordered association lists / lists, matching the
iteration-order semantics of the source.  `Date.now()` values are passed in
explicitly as `Int` parameters.
-/

namespace Debate

/-- A JavaScript string (`List Char`, in source order). -/
abbrev JsStr := List Char

abbrev SocketId := String
abbrev RoomId := String

/-! ### JS string primitives used by the source -/

/-- `String.prototype.toLowerCase` (per-character lowering). -/
def jsToLower (s : JsStr) : JsStr := s.map Char.toLower

/-- `String.prototype.trim`: drop leading and trailing whitespace. -/
def jsTrim (s : JsStr) : JsStr :=
  ((s.dropWhile Char.isWhitespace).reverse.dropWhile Char.isWhitespace).reverse

/-- Characters kept by the regex replace `[^a-z0-9] → ''`. -/
def isLowerAlnum (c : Char) : Bool :=
  (decide ('a' ≤ c) && decide (c ≤ 'z')) || (decide ('0' ≤ c) && decide (c ≤ '9'))

/-! ### Tag utilities (`normalizeTag`, `validateTags`, `validateMessage`) -/

/-- `normalizeTag(tag)`: `tag.toLowerCase().trim().replace(/[^a-z0-9]/g, '')`. -/
def normalizeTag (tag : JsStr) : JsStr :=
  (jsTrim (jsToLower tag)).filter isLowerAlnum

/-- An element of an `unknown` JS array: a string or some non-string value. -/
inductive JsVal where
  | str (s : JsStr)
  | other
deriving DecidableEq

/-- An `unknown` JS value passed where an array is expected. -/
inductive JsInput where
  | arr (xs : List JsVal)
  | notArray
deriving DecidableEq

/-- The first filter of `validateTags`:
`typeof tag === 'string' && tag.length > 0 && tag.length <= 24`. -/
def validStr : JsVal → Option JsStr
  | .str s => if 0 < s.length ∧ s.length ≤ 24 then some s else none
  | .other => none

/-- The dedupe loop of `validateTags` (`seen` is the set of normalized forms
already emitted). -/
def dedupeByNorm : List JsStr → List JsStr → List JsStr
  | [], _ => []
  | t :: ts, seen =>
    if normalizeTag t ∈ seen then dedupeByNorm ts seen
    else t :: dedupeByNorm ts (normalizeTag t :: seen)

/-- `validateTags(tags)`: filter to strings of length 1..24, keep the first 10,
trim, drop falsy (empty) results, and deduplicate by normalized form. -/
def validateTags : JsInput → List JsStr
  | .notArray => []
  | .arr xs =>
    let validTags := (((xs.filterMap validStr).take 10).map jsTrim).filter (· ≠ [])
    dedupeByNorm validTags []

/-- `validateMessage(text)`: `null` unless `text` is a string of length 1..500;
returns the trimmed text. -/
def validateMessage : JsVal → Option JsStr
  | .str s => if s.length = 0 ∨ s.length > 500 then none else some (jsTrim s)
  | .other => none

/-! ### JS `Map` / `Set` as insertion-ordered association lists / lists -/

/-- JS `Map.prototype.get`. -/
def alGet [DecidableEq α] (m : List (α × β)) (k : α) : Option β :=
  match m with
  | [] => none
  | p :: ps => if p.1 = k then some p.2 else alGet ps k

/-- JS `Map.prototype.set`: replace in place if the key is present (its
insertion position is kept), otherwise append. -/
def alSet [DecidableEq α] (m : List (α × β)) (k : α) (v : β) : List (α × β) :=
  match m with
  | [] => [(k, v)]
  | p :: ps => if p.1 = k then (k, v) :: ps else p :: alSet ps k v

/-- JS `Map.prototype.delete`. -/
def alDel [DecidableEq α] (m : List (α × β)) (k : α) : List (α × β) :=
  m.filter (fun p => p.1 ≠ k)

/-- JS `Set.prototype.add`: no-op if present, else append. -/
def setAdd [DecidableEq α] (s : List α) (a : α) : List α :=
  if a ∈ s then s else s ++ [a]

/-- JS `Set.prototype.delete`. -/
def setDel [DecidableEq α] (s : List α) (a : α) : List α :=
  s.filter (· ≠ a)

/-! ### Data model -/

/-- `WaitingUser` (server.ts): the waiting-pool entry. -/
structure WaitingUser where
  socketId : SocketId
  tags : List JsStr
  normalizedTags : List JsStr
  joinedAt : Int
deriving DecidableEq

/-- `ActiveRoom` (server.ts); `users` is the two-element tuple
`[socketId, matchId]`, `commonTag` is `undefined`-able. -/
structure ActiveRoom where
  id : RoomId
  user1 : SocketId
  user2 : SocketId
  topic : JsStr
  startTime : Int
  duration : Int
  isInterestMatch : Bool
  commonTag : Option JsStr
  lastActivity : Int
deriving DecidableEq

/-- `MatchResult` (server.ts). -/
structure MatchResult where
  matchId : Option SocketId
  commonTag : Option JsStr
deriving DecidableEq

/-- `RateLimitState` (server.ts). -/
structure RateLimitState where
  messages : List Int
  lastReset : Int
  lastTyping : Int
deriving DecidableEq

/-- `Metrics` (server.ts). -/
structure Metrics where
  matchesCreated : Nat
  interestMatches : Nat
  randomMatches : Nat
  skips : Nat
  ends : Nat
  rateLimitHits : Nat
  messagesTotal : Nat
  exactTagMatches : Nat
  fuzzyTagMatches : Nat
  fallbackMatches : Nat
deriving DecidableEq

/-- The module-level mutable maps of server.ts.  `roomTimers` keeps only the
set of rooms holding a live (uncancelled, unfired) duration timer; `sockets`
is `io.sockets.sockets` (connected sockets). -/
structure EngineState where
  waitingUsers : List (SocketId × WaitingUser)
  activeRooms : List (RoomId × ActiveRoom)
  userRoomMap : List (SocketId × RoomId)
  roomTimers : List RoomId
  rateLimits : List (SocketId × RateLimitState)
  claimed : List SocketId
  tagQueues : List (JsStr × List SocketId)
  sockets : List SocketId
  metrics : Metrics
deriving DecidableEq

/-- Outbound events handed to the transport layer.  `msgEvt` and `typingEvt`
are `socket.to(roomId)` emissions (delivered to the room excluding the
sender); `matched`, `roomEnded`, `roomClosed` are `io.to(roomId)` emissions;
`systemMsg` targets one socket; `searchCmd` is the delayed requeue `search`
emission of `endRoom`. -/
inductive OutEvent where
  | systemMsg (target : SocketId) (text : String)
  | matched (roomId : RoomId) (topic : JsStr) (duration : Int) (isInterestMatch : Bool)
  | msgEvt (roomId : RoomId) (sender : SocketId) (text : JsStr) (timestamp : Int)
  | roomEnded (roomId : RoomId) (reason : String)
  | roomClosed (roomId : RoomId)
  | typingEvt (roomId : RoomId) (sender : SocketId) (isTyping : Bool)
  | searchCmd (target : SocketId)
deriving DecidableEq

/-! ### Topic generation (the `Math.random()` index is passed in as `rand`) -/

/-- The prompt templates of `generateInterestPrompt`. -/
def interestPrompts (interest : JsStr) : List JsStr :=
  [ "Is ".toList ++ interest ++ " overrated?".toList,
    "Should everyone try ".toList ++ interest ++ "?".toList,
    "Is ".toList ++ interest ++ " worth the hype?".toList,
    "What\x27s the best thing about ".toList ++ interest ++ "?".toList,
    "Is ".toList ++ interest ++ " a waste of time or valuable hobby?".toList,
    "How important is ".toList ++ interest ++ " in modern life?".toList,
    "Would the world be better with more ".toList ++ interest ++ "?".toList ]

/-- `generateInterestPrompt(interest)` at random index `rand`. -/
def generateInterestPrompt (rand : Nat) (interest : JsStr) : JsStr :=
  (interestPrompts interest).getD (rand % 7) []

/-- `ALL_TOPICS = Object.values(DEBATE_TOPICS).flat()`. -/
def ALL_TOPICS : List JsStr :=
  [ "Pineapple belongs on pizza".toList, "Is cereal a soup?".toList,
    "Should you put milk or cereal first?".toList,
    "Cats are better than dogs".toList,
    "Are birds real or government drones?".toList,
    "Is math invented or discovered?".toList, "Is time travel possible?".toList,
    "Should robots have rights?".toList,
    "Is social media good or bad for society?".toList,
    "Should college be free?".toList,
    "Is remote work better than office work?".toList,
    "Should we colonize Mars?".toList,
    "Is artificial intelligence a threat to humanity?".toList,
    "Is nuclear energy safe?".toList,
    "Should you shower in the morning or at night?".toList,
    "Should toilet paper hang over or under?".toList,
    "Is it better to be too hot or too cold?".toList,
    "Is a hotdog a sandwich?".toList, "Is water wet?".toList,
    "Would you rather fight 100 duck-sized horses or 1 horse-sized duck?".toList,
    "Are video games a sport?".toList ]

/-- `getRandomTopic()` at random index `rand`. -/
def getRandomTopic (rand : Nat) : JsStr :=
  ALL_TOPICS.getD (rand % 21) []

/-! ### Tag queue management -/

/-- `addToTagQueues(socketId, normalizedTags)`. -/
def addToTagQueues (tq : List (JsStr × List SocketId)) (sid : SocketId)
    (normalizedTags : List JsStr) : List (JsStr × List SocketId) :=
  normalizedTags.foldl (fun tq tag =>
    match alGet tq tag with
    | none => tq ++ [(tag, [sid])]
    | some bucket => alSet tq tag (setAdd bucket sid)) tq

/-- `removeFromTagQueues(socketId)`: delete from every bucket, drop buckets
that are then empty. -/
def removeFromTagQueues (tq : List (JsStr × List SocketId)) (sid : SocketId) :
    List (JsStr × List SocketId) :=
  (tq.map (fun p => (p.1, p.2.filter (· ≠ sid)))).filter (fun p => p.2 ≠ [])

/-! ### `findMatch` -/

/-- JS `a || b` where `a` is a possibly-undefined string (`undefined` and the
empty string are falsy). -/
def jsOrElse (a : Option JsStr) (b : JsStr) : JsStr :=
  match a with
  | some t => if t = [] then b else t
  | none => b

/-- Scan one tag bucket (exact tier): skip the searcher and claimed ids,
delete stale ids (present in the bucket, absent from `waitingUsers`), stop at
the first remaining candidate.  Returns the bucket after the stale deletions
together with the selected candidate, if any. -/
def scanBucket (wu : List (SocketId × WaitingUser)) (cl : List SocketId)
    (sid : SocketId) : List SocketId → List SocketId × Option (SocketId × WaitingUser)
  | [] => ([], none)
  | c :: rest =>
    if c = sid then
      let r := scanBucket wu cl sid rest
      (c :: r.1, r.2)
    else if c ∈ cl then
      let r := scanBucket wu cl sid rest
      (c :: r.1, r.2)
    else
      match alGet wu c with
      | none => scanBucket wu cl sid rest
      | some w => (c :: rest, some (c, w))

/-- Exact tier of `findMatch`: walk the searcher's normalized tags in input
order, scanning each tag's bucket; bucket stale-deletions are written back. -/
def exactTier (sid : SocketId) :
    List JsStr → EngineState → EngineState × Option (SocketId × WaitingUser × JsStr)
  | [], s => (s, none)
  | userTag :: rest, s =>
    match alGet s.tagQueues userTag with
    | none => exactTier sid rest s
    | some bucket =>
      let r := scanBucket s.waitingUsers s.claimed sid bucket
      let s1 := { s with tagQueues := alSet s.tagQueues userTag r.1 }
      match r.2 with
      | none => exactTier sid rest s1
      | some cw => (s1, some (cw.1, cw.2, userTag))

/-- The fuzzy-tier similarity test on two normalized tags. -/
def similarTag (userTag waitingTag : JsStr) : Bool :=
  decide (waitingTag ≠ userTag) &&
    (userTag.isPrefixOf waitingTag ||
     waitingTag.isPrefixOf userTag ||
     (decide (userTag.length > 3) && decide (waitingTag.length > 3) &&
       (decide (userTag <:+: waitingTag) || decide (waitingTag <:+: userTag))))

/-- Inner loop of the fuzzy tier: the first of the searcher's tags for which
the candidate has a similar tag; a found-but-empty similar tag is falsy in
`if (similarTag)` and is skipped. -/
def firstSimilar (normalizedTags : List JsStr) (w : WaitingUser) : Option JsStr :=
  normalizedTags.findSome? (fun userTag =>
    match w.normalizedTags.find? (fun wt => similarTag userTag wt) with
    | some st => if st = [] then none else some st
    | none => none)

/-- Fuzzy tier: scan the waiting pool in insertion order. -/
def fuzzyFind (normalizedTags : List JsStr) (cl : List SocketId) (sid : SocketId) :
    List (SocketId × WaitingUser) → Option (SocketId × WaitingUser × JsStr)
  | [] => none
  | (c, w) :: rest =>
    if c = sid ∨ c ∈ cl then fuzzyFind normalizedTags cl sid rest
    else
      match firstSimilar normalizedTags w with
      | some st => some (c, w, st)
      | none => fuzzyFind normalizedTags cl sid rest

/-- Fallback tier: the first waiting entry that is neither the searcher nor
claimed. -/
def fallbackFind (cl : List SocketId) (sid : SocketId) :
    List (SocketId × WaitingUser) → Option SocketId
  | [] => none
  | (c, _) :: rest => if c ≠ sid ∧ c ∉ cl then some c else fallbackFind cl sid rest

/-- `findMatch(socketId, normalizedTags)`: three-tier matching with atomic
claiming; returns the selected candidate (claimed in the post-state) and the
`commonTag`. -/
def findMatch (sid : SocketId) (normalizedTags : List JsStr) (s : EngineState) :
    EngineState × MatchResult :=
  let r := exactTier sid normalizedTags s
  match r.2 with
  | some cwt =>
    let s1 := r.1
    let originalTag :=
      jsOrElse (cwt.2.1.tags.find? (fun t => normalizeTag t = cwt.2.2)) cwt.2.2
    ({ s1 with claimed := setAdd s1.claimed cwt.1,
               metrics := { s1.metrics with
                 exactTagMatches := s1.metrics.exactTagMatches + 1 } },
     ⟨some cwt.1, some originalTag⟩)
  | none =>
    let s1 := r.1
    match (if s1.waitingUsers.length < 500 then
        fuzzyFind normalizedTags s1.claimed sid s1.waitingUsers else none) with
    | some cwt =>
      let originalTag :=
        jsOrElse (cwt.2.1.tags.find? (fun t => normalizeTag t = cwt.2.2)) cwt.2.2
      ({ s1 with claimed := setAdd s1.claimed cwt.1,
                 metrics := { s1.metrics with
                   fuzzyTagMatches := s1.metrics.fuzzyTagMatches + 1 } },
       ⟨some cwt.1, some originalTag⟩)
    | none =>
      match fallbackFind s1.claimed sid s1.waitingUsers with
      | some c =>
        ({ s1 with claimed := setAdd s1.claimed c,
                   metrics := { s1.metrics with
                     fallbackMatches := s1.metrics.fallbackMatches + 1 } },
         ⟨some c, none⟩)
      | none => (s1, ⟨none, none⟩)

/-! ### Rate limiting -/

/-- `checkMessageRateLimit(socketId)` at time `now`. -/
def checkMessageRateLimit (sid : SocketId) (now : Int) (s : EngineState) :
    EngineState × Bool :=
  let limit := (alGet s.rateLimits sid).getD ⟨[], now, 0⟩
  let limit := if now - limit.lastReset > 60000 then
      { limit with messages := [], lastReset := now } else limit
  let msgs := limit.messages ++ [now]
  let msgs := msgs.filter (fun time => now - time < 60000)
  let msgs := msgs.drop (msgs.length - 50)
  let limit := { limit with messages := msgs }
  let allowed := decide (msgs.length ≤ 30)
  let m := if allowed then s.metrics else
      { s.metrics with rateLimitHits := s.metrics.rateLimitHits + 1 }
  ({ s with rateLimits := alSet s.rateLimits sid limit, metrics := m }, allowed)

/-- `checkTypingRateLimit(socketId)` at time `now`. -/
def checkTypingRateLimit (sid : SocketId) (now : Int) (s : EngineState) :
    EngineState × Bool :=
  let limit := (alGet s.rateLimits sid).getD ⟨[], now, 0⟩
  if now - limit.lastTyping > 1500 then
    ({ s with rateLimits := alSet s.rateLimits sid { limit with lastTyping := now } },
     true)
  else (s, false)

/-- Iterated calls of `checkMessageRateLimit` for one connection at the given
sequence of clock readings, collecting the verdicts in call order. -/
def rlResults (sid : SocketId) : EngineState → List Int → List Bool
  | _, [] => []
  | s, t :: ts =>
    let r := checkMessageRateLimit sid t s
    r.2 :: rlResults sid r.1 ts

/-! ### Room lifecycle -/

/-- `clearRoomTimer(roomId)`. -/
def clearRoomTimer (roomId : RoomId) (timers : List RoomId) : List RoomId :=
  setDel timers roomId

/-- `endRoom(roomId, reason, skipperSocketId?)`: no-op when the room is gone;
otherwise cancels the timer, releases both claims, emits the termination
events, optionally schedules the requeue courtesy for the skipped partner,
removes both reverse-lookup entries and deletes the room. -/
def endRoom (roomId : RoomId) (reason : String) (skipper : Option SocketId)
    (s : EngineState) : EngineState × List OutEvent :=
  match alGet s.activeRooms roomId with
  | none => (s, [])
  | some room =>
    let timers := clearRoomTimer roomId s.roomTimers
    let cl := (s.claimed.filter (· ≠ room.user1)).filter (· ≠ room.user2)
    let baseEvents := [OutEvent.roomEnded roomId reason, OutEvent.roomClosed roomId]
    let requeueEvents :=
      match skipper with
      | some sk =>
        if reason = "User skipped" then
          let partner := if room.user1 ≠ sk then some room.user1
            else if room.user2 ≠ sk then some room.user2 else none
          match partner with
          | some p =>
            if p ∈ s.sockets then
              [OutEvent.systemMsg p "Your partner left. Finding you a new opponent...",
               OutEvent.searchCmd p]
            else []
          | none => []
        else []
      | none => []
    let urm := alDel (alDel s.userRoomMap room.user1) room.user2
    let rooms := alDel s.activeRooms roomId
    let m := if reason = "User skipped" then
        { s.metrics with skips := s.metrics.skips + 1 }
      else if reason = "User ended the debate" then
        { s.metrics with ends := s.metrics.ends + 1 }
      else s.metrics
    ({ s with roomTimers := timers, claimed := cl, userRoomMap := urm,
              activeRooms := rooms, metrics := m },
     baseEvents ++ requeueEvents)

/-! ### Socket handlers -/

/-- The acknowledgement callback payload. -/
structure CbResult where
  success : Bool
  queued : Option Bool
  message : Option String
deriving DecidableEq

/-- `ROOM_DURATION_MS` default. -/
def ROOM_DURATION_MS : Int := 300000

/-- The `find` handler.  `now` is `Date.now()`, `freshRoomId` the
`crypto.randomUUID()` result, `rand` the `Math.random()` topic index. -/
def opFind (sid : SocketId) (rawTags : JsInput) (now : Int) (freshRoomId : RoomId)
    (rand : Nat) (s : EngineState) : EngineState × List OutEvent × CbResult :=
  let tags := validateTags rawTags
  if (alGet s.userRoomMap sid).isSome then
    (s, [.systemMsg sid "You are already in a debate!"],
     ⟨false, none, some "You are already in a debate!"⟩)
  else
    let normalizedTags := tags.map normalizeTag
    let fm := findMatch sid normalizedTags s
    let s1 := fm.1
    match fm.2.matchId with
    | some matchId =>
      let roomId := freshRoomId
      let interest : Option JsStr :=
        match fm.2.commonTag with
        | some ct => if ct = [] then none else some ct
        | none => none
      let tim :=
        match interest with
        | some ct => (generateInterestPrompt rand ct, true,
            { s1.metrics with interestMatches := s1.metrics.interestMatches + 1 })
        | none => (getRandomTopic rand, false,
            { s1.metrics with randomMatches := s1.metrics.randomMatches + 1 })
      let room : ActiveRoom :=
        { id := roomId, user1 := sid, user2 := matchId, topic := tim.1,
          startTime := now, duration := ROOM_DURATION_MS,
          isInterestMatch := tim.2.1, commonTag := interest, lastActivity := now }
      let s2 := { s1 with
        activeRooms := alSet s1.activeRooms roomId room,
        userRoomMap := alSet (alSet s1.userRoomMap sid roomId) matchId roomId,
        waitingUsers := alDel s1.waitingUsers matchId,
        tagQueues := removeFromTagQueues s1.tagQueues matchId,
        claimed := setDel s1.claimed matchId,
        roomTimers := setAdd (clearRoomTimer roomId s1.roomTimers) roomId,
        metrics := { tim.2.2 with matchesCreated := tim.2.2.matchesCreated + 1 } }
      (s2, [.matched roomId tim.1 ROOM_DURATION_MS tim.2.1],
       ⟨true, some false, some "Matched successfully!"⟩)
    | none =>
      let w : WaitingUser :=
        { socketId := sid, tags := tags, normalizedTags := normalizedTags,
          joinedAt := now }
      let s2 := { s1 with
        waitingUsers := alSet s1.waitingUsers sid w,
        tagQueues := addToTagQueues s1.tagQueues sid normalizedTags }
      (s2, [.systemMsg sid "Waiting for an opponent..."],
       ⟨true, some true, some "Added to queue"⟩)

/-- The `message` handler. -/
def opMessage (sid : SocketId) (roomId : RoomId) (rawText : JsVal) (now : Int)
    (s : EngineState) : EngineState × List OutEvent × CbResult :=
  match validateMessage rawText with
  | none => (s, [], ⟨false, none, some "Invalid message"⟩)
  | some text =>
    if text = [] then (s, [], ⟨false, none, some "Invalid message"⟩)
    else
      let rl := checkMessageRateLimit sid now s
      if rl.2 = false then
        (rl.1, [.systemMsg sid "Message rate limit exceeded"],
         ⟨false, none, some "Rate limited"⟩)
      else
        match alGet rl.1.activeRooms roomId with
        | none => (rl.1, [], ⟨false, none, some "Not in room"⟩)
        | some room =>
          if sid ≠ room.user1 ∧ sid ≠ room.user2 then
            (rl.1, [], ⟨false, none, some "Not in room"⟩)
          else
            let s2 := { rl.1 with
              activeRooms := alSet rl.1.activeRooms roomId
                { room with lastActivity := now },
              metrics := { rl.1.metrics with
                messagesTotal := rl.1.metrics.messagesTotal + 1 } }
            (s2, [.msgEvt roomId sid text now], ⟨true, none, none⟩)

/-- The `typing` handler. -/
def opTyping (sid : SocketId) (roomId : RoomId) (isTyping : Bool) (now : Int)
    (s : EngineState) : EngineState × List OutEvent :=
  let tr := checkTypingRateLimit sid now s
  if tr.2 = false then (tr.1, [])
  else
    match alGet tr.1.activeRooms roomId with
    | none => (tr.1, [])
    | some room =>
      if sid ≠ room.user1 ∧ sid ≠ room.user2 then (tr.1, [])
      else (tr.1, [.typingEvt roomId sid isTyping])

/-- The `skip` handler. -/
def opSkip (sid : SocketId) (s : EngineState) : EngineState × List OutEvent × CbResult :=
  match alGet s.userRoomMap sid with
  | none =>
    let s1 := { s with
      waitingUsers := alDel s.waitingUsers sid,
      tagQueues := removeFromTagQueues s.tagQueues sid,
      claimed := setDel s.claimed sid }
    (s1, [.systemMsg sid "Search cancelled"], ⟨true, none, some "Search cancelled"⟩)
  | some roomId =>
    let er := endRoom roomId "User skipped" (some sid) s
    (er.1, er.2, ⟨true, none, some "Skipped successfully"⟩)

/-- The `end` handler. -/
def opEnd (sid : SocketId) (roomId : RoomId) (s : EngineState) :
    EngineState × List OutEvent × CbResult :=
  match alGet s.activeRooms roomId with
  | none => (s, [], ⟨false, none, some "Not in room"⟩)
  | some room =>
    if sid ≠ room.user1 ∧ sid ≠ room.user2 then
      (s, [], ⟨false, none, some "Not in room"⟩)
    else
      let er := endRoom roomId "User ended the debate" none s
      (er.1, er.2, ⟨true, none, some "Ended successfully"⟩)

/-- The `disconnect` handler. -/
def opDisconnect (sid : SocketId) (s : EngineState) : EngineState × List OutEvent :=
  let s1 := { s with
    waitingUsers := alDel s.waitingUsers sid,
    tagQueues := removeFromTagQueues s.tagQueues sid,
    rateLimits := alDel s.rateLimits sid,
    claimed := setDel s.claimed sid,
    sockets := setDel s.sockets sid }
  match alGet s1.userRoomMap sid with
  | none => (s1, [])
  | some roomId => endRoom roomId "User disconnected" none s1

/-- The `connection` handler (registers the socket; no engine mutation). -/
def opConnect (sid : SocketId) (s : EngineState) : EngineState :=
  { s with sockets := setAdd s.sockets sid }

/-- A duration timer firing: only a live (never cancelled) timer runs its
callback `endRoom(roomId, 'Time expired')`. -/
def fireRoomTimer (roomId : RoomId) (s : EngineState) : EngineState × List OutEvent :=
  if roomId ∈ s.roomTimers then endRoom roomId "Time expired" none s
  else (s, [])

/-- The inactivity-monitoring interval at time `now`. -/
def inactivitySweep (now : Int) (s : EngineState) : EngineState × List OutEvent :=
  s.activeRooms.foldl (fun acc p =>
    if now - p.2.lastActivity > 900000 then
      let er := endRoom p.1 "Inactivity timeout" none acc.1
      (er.1, acc.2 ++ er.2)
    else acc) (s, [])

/-- The stale-user-cleanup interval at time `now`. -/
def staleSweep (now : Int) (s : EngineState) : EngineState :=
  s.waitingUsers.foldl (fun acc p =>
    if now - p.2.joinedAt > 300000 then
      { acc with
        waitingUsers := alDel acc.waitingUsers p.1,
        tagQueues := removeFromTagQueues acc.tagQueues p.1,
        claimed := setDel acc.claimed p.1 }
    else acc) s

/-! ### The operation alphabet and reachability -/

/-- One engine operation, with every nondeterministic input (caller, payload,
clock reading, fresh ids, random indices) made explicit. -/
inductive Op where
  | connect (sid : SocketId)
  | find (sid : SocketId) (rawTags : JsInput) (now : Int) (freshRoomId : RoomId) (rand : Nat)
  | message (sid : SocketId) (roomId : RoomId) (rawText : JsVal) (now : Int)
  | typing (sid : SocketId) (roomId : RoomId) (isTyping : Bool) (now : Int)
  | skip (sid : SocketId)
  | endDebate (sid : SocketId) (roomId : RoomId)
  | disconnect (sid : SocketId)
  | timerFire (roomId : RoomId)
  | inactivity (now : Int)
  | stale (now : Int)

/-- State reached after one operation. -/
def applyOp (s : EngineState) : Op → EngineState
  | .connect sid => opConnect sid s
  | .find sid rawTags now freshRoomId rand => (opFind sid rawTags now freshRoomId rand s).1
  | .message sid roomId rawText now => (opMessage sid roomId rawText now s).1
  | .typing sid roomId isTyping now => (opTyping sid roomId isTyping now s).1
  | .skip sid => (opSkip sid s).1
  | .endDebate sid roomId => (opEnd sid roomId s).1
  | .disconnect sid => (opDisconnect sid s).1
  | .timerFire roomId => (fireRoomTimer roomId s).1
  | .inactivity now => (inactivitySweep now s).1
  | .stale now => staleSweep now s

/-- The empty start state of the module. -/
def initState : EngineState :=
  ⟨[], [], [], [], [], [], [], [], ⟨0, 0, 0, 0, 0, 0, 0, 0, 0, 0⟩⟩

/-- State reached by a sequence of operations from the start state. -/
def runOps (ops : List Op) : EngineState :=
  ops.foldl applyOp initState

/-- Consistency of `tagQueues` with `waitingUsers`, as the `find` handler
maintains it: every waiting user is filed under each of its normalized tags
(completeness), and a bucket member that is still waiting carries the
bucket's tag (soundness). -/
def IndexOk (s : EngineState) : Prop :=
  (∀ p ∈ s.waitingUsers, ∀ t ∈ p.2.normalizedTags,
    p.1 ∈ (alGet s.tagQueues t).getD []) ∧
  (∀ q ∈ s.tagQueues, ∀ p ∈ s.waitingUsers, p.1 ∈ q.2 →
    q.1 ∈ p.2.normalizedTags)

/-- The inductive invariant behind the waiting-pool/room disjointness: at
operation boundaries no claim is outstanding, at most one connection waits
(the fallback tier matches any second searcher immediately), and no waiting
connection has a reverse-lookup entry. -/
def EngineInv (s : EngineState) : Prop :=
  s.claimed = [] ∧ s.waitingUsers.length ≤ 1 ∧
  ∀ p ∈ s.waitingUsers, alGet s.userRoomMap p.1 = none

/-! ## Lemmas about characters and normalization -/

lemma isLowerAlnum_toNat {c : Char} (h : isLowerAlnum c = true) :
    (97 ≤ c.toNat ∧ c.toNat ≤ 122) ∨ (48 ≤ c.toNat ∧ c.toNat ≤ 57) := by
  simp [isLowerAlnum, Char.le_def, UInt32.le_def, BitVec.le_def] at h
  rcases h with ⟨h1, h2⟩ | ⟨h1, h2⟩
  · exact Or.inl ⟨h1, h2⟩
  · exact Or.inr ⟨h1, h2⟩

lemma toLower_fixed {c : Char} (h : isLowerAlnum c = true) : Char.toLower c = c := by
  have hn := isLowerAlnum_toNat h
  unfold Char.toLower
  rw [if_neg]
  omega

lemma not_ws {c : Char} (h : isLowerAlnum c = true) : c.isWhitespace = false := by
  have hn := isLowerAlnum_toNat h
  have h1 : c ≠ ' ' := fun he => by subst he; revert hn; decide
  have h2 : c ≠ '\t' := fun he => by subst he; revert hn; decide
  have h3 : c ≠ '\r' := fun he => by subst he; revert hn; decide
  have h4 : c ≠ '\n' := fun he => by subst he; revert hn; decide
  simp [Char.isWhitespace, h1, h2, h3, h4]

lemma dropWhile_eq_self {p : α → Bool} {l : List α} (h : ∀ a ∈ l, p a = false) :
    l.dropWhile p = l := by
  cases l with
  | nil => rfl
  | cons a as =>
    rw [List.dropWhile_cons, h a (by simp)]
    simp

lemma jsTrim_eq_self {s : JsStr} (h : ∀ c ∈ s, Char.isWhitespace c = false) :
    jsTrim s = s := by
  unfold jsTrim
  rw [dropWhile_eq_self h, dropWhile_eq_self, List.reverse_reverse]
  intro a ha
  exact h a (List.mem_reverse.mp ha)

lemma jsToLower_eq_self {s : JsStr} (h : ∀ c ∈ s, isLowerAlnum c = true) :
    jsToLower s = s := by
  unfold jsToLower
  induction s with
  | nil => rfl
  | cons a as ih =>
    simp only [List.map_cons]
    rw [toLower_fixed (h a (by simp)), ih (fun c hc => h c (by simp [hc]))]

lemma mem_normalizeTag {t : JsStr} {c : Char} (h : c ∈ normalizeTag t) :
    isLowerAlnum c = true :=
  (List.mem_filter.mp h).2

lemma jsTrim_length_le (s : JsStr) : (jsTrim s).length ≤ s.length := by
  unfold jsTrim
  calc ((s.dropWhile Char.isWhitespace).reverse.dropWhile Char.isWhitespace).reverse.length
      = ((s.dropWhile Char.isWhitespace).reverse.dropWhile Char.isWhitespace).length := by
        rw [List.length_reverse]
    _ ≤ (s.dropWhile Char.isWhitespace).reverse.length :=
        List.Sublist.length_le (List.dropWhile_sublist _)
    _ = (s.dropWhile Char.isWhitespace).length := by rw [List.length_reverse]
    _ ≤ s.length := List.Sublist.length_le (List.dropWhile_sublist _)

/-! ## Lemmas about `validateTags` -/

lemma validStr_some {v : JsVal} {s : JsStr} (h : validStr v = some s) :
    0 < s.length ∧ s.length ≤ 24 := by
  cases v with
  | str t =>
    simp only [validStr] at h
    split at h
    · injection h with h'
      subst h'
      assumption
    · exact absurd h (by simp)
  | other => exact absurd h (by simp [validStr])

lemma dedupeByNorm_sublist : ∀ (l seen : List JsStr), (dedupeByNorm l seen).Sublist l := by
  intro l
  induction l with
  | nil => intro seen; simp [dedupeByNorm]
  | cons t ts ih =>
    intro seen
    unfold dedupeByNorm
    split
    · exact (ih seen).cons t
    · exact (ih (normalizeTag t :: seen)).cons₂ t

lemma dedupeByNorm_notMem_seen :
    ∀ (l seen : List JsStr) (t : JsStr), t ∈ dedupeByNorm l seen →
      normalizeTag t ∉ seen := by
  intro l
  induction l with
  | nil => intro seen t ht; simp [dedupeByNorm] at ht
  | cons a as ih =>
    intro seen t ht
    unfold dedupeByNorm at ht
    split at ht
    · exact ih seen t ht
    · rcases List.mem_cons.mp ht with rfl | hmem
      · assumption
      · intro hseen
        exact ih _ t hmem (List.mem_cons_of_mem _ hseen)

lemma alGet_alSet [DecidableEq α] (m : List (α × β)) (k k' : α) (v : β) :
    alGet (alSet m k v) k' = if k = k' then some v else alGet m k' := by
  induction m with
  | nil => by_cases h : k = k' <;> simp [alGet, alSet, h]
  | cons p ps ih =>
    simp only [alSet]
    by_cases hp : p.1 = k
    · rw [if_pos hp]
      by_cases h : k = k'
      · simp [alGet, h]
      · have hp' : ¬ p.1 = k' := fun hc => h (by rw [← hp, hc])
        simp [alGet, h, hp']
    · rw [if_neg hp]
      by_cases hq : p.1 = k'
      · have h : ¬ k = k' := fun hc => hp (by rw [hc, ← hq])
        simp [alGet, hq, h]
      · simp [alGet, hq, ih]

lemma alGet_alDel [DecidableEq α] (m : List (α × β)) (k k' : α) :
    alGet (alDel m k) k' = if k = k' then none else alGet m k' := by
  induction m with
  | nil => by_cases h : k = k' <;> simp [alGet, alDel, h]
  | cons p ps ih =>
    simp only [alDel, List.filter_cons, decide_not] at ih ⊢
    by_cases hp : p.1 = k
    · have hd : (!decide (p.1 = k)) = false := by simp [hp]
      rw [hd]
      simp only [Bool.false_eq_true, if_false]
      by_cases h : k = k'
      · rw [ih, if_pos h, if_pos h]
      · have hp' : ¬ p.1 = k' := fun hc => h (by rw [← hp, hc])
        rw [ih, if_neg h, if_neg h]
        simp [alGet, hp']
    · have hd : (!decide (p.1 = k)) = true := by simp [hp]
      rw [hd]
      simp only [if_true]
      by_cases hq : p.1 = k'
      · have h : ¬ k = k' := fun hc => hp (by rw [hc, ← hq])
        simp [alGet, hq, h]
      · simp [alGet, hq, ih]

lemma alGet_mem [DecidableEq α] {m : List (α × β)} {k : α} {v : β}
    (h : alGet m k = some v) : (k, v) ∈ m := by
  induction m with
  | nil => simp [alGet] at h
  | cons p ps ih =>
    simp only [alGet] at h
    split at h
    · rename_i hp
      injection h with h'
      cases p
      simp only at hp h'
      subst hp
      subst h'
      exact List.mem_cons_self _ _
    · exact List.mem_cons_of_mem _ (ih h)

lemma alGet_isSome_of_mem [DecidableEq α] {m : List (α × β)} {k : α} {v : β}
    (h : (k, v) ∈ m) : (alGet m k).isSome := by
  induction m with
  | nil => simp at h
  | cons p ps ih =>
    rcases List.mem_cons.mp h with rfl | hmem
    · simp [alGet]
    · simp only [alGet]
      split
      · simp
      · exact ih hmem

lemma mem_alSet [DecidableEq α] {m : List (α × β)} {k : α} {v : β} {q : α × β}
    (h : q ∈ alSet m k v) : q = (k, v) ∨ q ∈ m := by
  induction m with
  | nil => simpa [alSet] using h
  | cons p ps ih =>
    simp only [alSet] at h
    split at h
    · rcases List.mem_cons.mp h with rfl | hmem
      · exact Or.inl rfl
      · exact Or.inr (List.mem_cons_of_mem _ hmem)
    · rcases List.mem_cons.mp h with rfl | hmem
      · exact Or.inr (List.mem_cons_self _ _)
      · rcases ih hmem with h' | h'
        · exact Or.inl h'
        · exact Or.inr (List.mem_cons_of_mem _ h')

lemma alDel_subset [DecidableEq α] {m : List (α × β)} {k : α} {q : α × β}
    (h : q ∈ alDel m k) : q ∈ m :=
  List.mem_of_mem_filter h

lemma alDel_length_le [DecidableEq α] (m : List (α × β)) (k : α) :
    (alDel m k).length ≤ m.length :=
  List.length_filter_le _ _

lemma mem_setAdd_self [DecidableEq α] (s : List α) (a : α) : a ∈ setAdd s a := by
  unfold setAdd
  split
  · assumption
  · simp

lemma not_mem_setDel_self [DecidableEq α] (s : List α) (a : α) : a ∉ setDel s a := by
  intro h
  have := (List.mem_filter.mp h).2
  simp at this

lemma mem_of_mem_setDel [DecidableEq α] {s : List α} {a b : α} (h : b ∈ setDel s a) :
    b ∈ s :=
  List.mem_of_mem_filter h

lemma dedupeByNorm_pairwise :
    ∀ (l seen : List JsStr),
      (dedupeByNorm l seen).Pairwise (fun a b => normalizeTag a ≠ normalizeTag b) := by
  intro l
  induction l with
  | nil => intro seen; simp [dedupeByNorm]
  | cons a as ih =>
    intro seen
    unfold dedupeByNorm
    split
    · exact ih seen
    · refine List.Pairwise.cons ?_ (ih (normalizeTag a :: seen))
      intro b hb heq
      exact dedupeByNorm_notMem_seen _ _ b hb (heq ▸ List.mem_cons_self _ _)

/-! ## Lemmas about `findMatch` -/

lemma scanBucket_found (wu : List (SocketId × WaitingUser)) (cl : List SocketId)
    (sid : SocketId) :
    ∀ (bucket : List SocketId) (c : SocketId) (w : WaitingUser),
    (scanBucket wu cl sid bucket).2 = some (c, w) →
    c ∉ cl ∧ alGet wu c = some w ∧ c ≠ sid ∧ c ∈ bucket := by
  intro bucket
  induction bucket with
  | nil =>
    intro c w h
    simp [scanBucket] at h
  | cons b rest ih =>
    intro c w h
    simp only [scanBucket] at h
    by_cases hb : b = sid
    · rw [if_pos hb] at h
      obtain ⟨h1, h2, h3, h4⟩ := ih c w (by simpa using h)
      exact ⟨h1, h2, h3, List.mem_cons_of_mem _ h4⟩
    · rw [if_neg hb] at h
      by_cases hcl : b ∈ cl
      · rw [if_pos hcl] at h
        obtain ⟨h1, h2, h3, h4⟩ := ih c w (by simpa using h)
        exact ⟨h1, h2, h3, List.mem_cons_of_mem _ h4⟩
      · rw [if_neg hcl] at h
        cases hg : alGet wu b with
        | none =>
          rw [hg] at h
          obtain ⟨h1, h2, h3, h4⟩ := ih c w h
          exact ⟨h1, h2, h3, List.mem_cons_of_mem _ h4⟩
        | some w' =>
          rw [hg] at h
          simp only [Option.some.injEq, Prod.mk.injEq] at h
          obtain ⟨rfl, rfl⟩ := h
          exact ⟨hcl, hg, hb, List.mem_cons_self _ _⟩

lemma scanBucket_sublist (wu : List (SocketId × WaitingUser)) (cl : List SocketId)
    (sid : SocketId) : ∀ (bucket : List SocketId),
    (scanBucket wu cl sid bucket).1.Sublist bucket := by
  intro bucket
  induction bucket with
  | nil => simp [scanBucket]
  | cons b rest ih =>
    simp only [scanBucket]
    by_cases hb : b = sid
    · rw [if_pos hb]
      exact ih.cons₂ b
    · rw [if_neg hb]
      by_cases hcl : b ∈ cl
      · rw [if_pos hcl]
        exact ih.cons₂ b
      · rw [if_neg hcl]
        cases hg : alGet wu b with
        | none =>
          simp only [hg]
          exact ih.cons b
        | some w' =>
          simp only [hg]
          exact List.Sublist.refl _

lemma scanBucket_mem_keep (wu : List (SocketId × WaitingUser)) (cl : List SocketId)
    (sid : SocketId) : ∀ (bucket : List SocketId) (c : SocketId),
    c ∈ bucket → (alGet wu c).isSome → c ∈ (scanBucket wu cl sid bucket).1 := by
  intro bucket
  induction bucket with
  | nil =>
    intro c hc _
    simp at hc
  | cons b rest ih =>
    intro c hc hsome
    simp only [scanBucket]
    by_cases hb : b = sid
    · rw [if_pos hb]
      rcases List.mem_cons.mp hc with rfl | hc'
      · exact List.mem_cons_self _ _
      · exact List.mem_cons_of_mem _ (ih c hc' hsome)
    · rw [if_neg hb]
      by_cases hcl : b ∈ cl
      · rw [if_pos hcl]
        rcases List.mem_cons.mp hc with rfl | hc'
        · exact List.mem_cons_self _ _
        · exact List.mem_cons_of_mem _ (ih c hc' hsome)
      · rw [if_neg hcl]
        cases hg : alGet wu b with
        | none =>
          simp only [hg]
          rcases List.mem_cons.mp hc with rfl | hc'
          · rw [hg] at hsome
            simp at hsome
          · exact ih c hc' hsome
        | some w' =>
          simp only [hg]
          exact hc

lemma scanBucket_none (wu : List (SocketId × WaitingUser)) (cl : List SocketId)
    (sid : SocketId) : ∀ (bucket : List SocketId),
    (scanBucket wu cl sid bucket).2 = none →
    ∀ c ∈ bucket, c = sid ∨ c ∈ cl ∨ alGet wu c = none := by
  intro bucket
  induction bucket with
  | nil =>
    intro _ c hc
    simp at hc
  | cons b rest ih =>
    intro h c hc
    simp only [scanBucket] at h
    by_cases hb : b = sid
    · rw [if_pos hb] at h
      rcases List.mem_cons.mp hc with rfl | hc'
      · exact Or.inl hb
      · exact ih (by simpa using h) c hc'
    · rw [if_neg hb] at h
      by_cases hcl : b ∈ cl
      · rw [if_pos hcl] at h
        rcases List.mem_cons.mp hc with rfl | hc'
        · exact Or.inr (Or.inl hcl)
        · exact ih (by simpa using h) c hc'
      · rw [if_neg hcl] at h
        cases hg : alGet wu b with
        | none =>
          rw [hg] at h
          rcases List.mem_cons.mp hc with rfl | hc'
          · exact Or.inr (Or.inr hg)
          · exact ih h c hc'
        | some w' =>
          rw [hg] at h
          simp at h

lemma exactTier_fields (sid : SocketId) : ∀ (nt : List JsStr) (s : EngineState),
    (exactTier sid nt s).1.waitingUsers = s.waitingUsers ∧
    (exactTier sid nt s).1.claimed = s.claimed ∧
    (exactTier sid nt s).1.userRoomMap = s.userRoomMap ∧
    (exactTier sid nt s).1.metrics = s.metrics ∧
    (exactTier sid nt s).1.activeRooms = s.activeRooms ∧
    (exactTier sid nt s).1.rateLimits = s.rateLimits ∧
    (exactTier sid nt s).1.roomTimers = s.roomTimers ∧
    (exactTier sid nt s).1.sockets = s.sockets := by
  intro nt
  induction nt with
  | nil =>
    intro s
    simp [exactTier]
  | cons t' rest ih =>
    intro s
    simp only [exactTier]
    split
    · exact ih s
    · split
      · exact ih _
      · simp

lemma exactTier_found_props (sid : SocketId) :
    ∀ (nt : List JsStr) (s : EngineState) (c : SocketId) (w : WaitingUser) (tg : JsStr),
    (exactTier sid nt s).2 = some (c, w, tg) →
    c ∉ s.claimed ∧ alGet s.waitingUsers c = some w ∧ c ≠ sid ∧ tg ∈ nt := by
  intro nt
  induction nt with
  | nil =>
    intro s c w tg h
    simp [exactTier] at h
  | cons t' rest ih =>
    intro s c w tg h
    simp only [exactTier] at h
    split at h
    · obtain ⟨h1, h2, h3, h4⟩ := ih s c w tg h
      exact ⟨h1, h2, h3, List.mem_cons_of_mem _ h4⟩
    · rename_i bucket hq
      split at h
      · obtain ⟨h1, h2, h3, h4⟩ := ih _ c w tg h
        exact ⟨h1, h2, h3, List.mem_cons_of_mem _ h4⟩
      · rename_i cw hr
        simp only [Option.some.injEq, Prod.mk.injEq] at h
        obtain ⟨rfl, rfl, rfl⟩ := h
        obtain ⟨h1, h2, h3, _⟩ := scanBucket_found _ _ _ bucket cw.1 cw.2 hr
        exact ⟨h1, h2, h3, List.mem_cons_self _ _⟩

lemma fuzzyFind_found (nt : List JsStr) (cl : List SocketId) (sid : SocketId) :
    ∀ (l : List (SocketId × WaitingUser)) (c : SocketId) (w : WaitingUser) (st : JsStr),
    fuzzyFind nt cl sid l = some (c, w, st) →
    c ∉ cl ∧ c ≠ sid ∧ (c, w) ∈ l := by
  intro l
  induction l with
  | nil =>
    intro c w st h
    simp [fuzzyFind] at h
  | cons p rest ih =>
    intro c w st h
    rw [show p = (p.1, p.2) from rfl] at h
    simp only [fuzzyFind] at h
    by_cases hskip : p.1 = sid ∨ p.1 ∈ cl
    · rw [if_pos hskip] at h
      obtain ⟨h1, h2, h3⟩ := ih c w st h
      exact ⟨h1, h2, List.mem_cons_of_mem _ h3⟩
    · rw [if_neg hskip] at h
      push_neg at hskip
      cases hf : firstSimilar nt p.2 with
      | none =>
        rw [hf] at h
        obtain ⟨h1, h2, h3⟩ := ih c w st h
        exact ⟨h1, h2, List.mem_cons_of_mem _ h3⟩
      | some st' =>
        rw [hf] at h
        simp only [Option.some.injEq, Prod.mk.injEq] at h
        obtain ⟨rfl, rfl, rfl⟩ := h
        exact ⟨hskip.2, hskip.1, by simp⟩

lemma fallbackFind_found (cl : List SocketId) (sid : SocketId) :
    ∀ (l : List (SocketId × WaitingUser)) (c : SocketId),
    fallbackFind cl sid l = some c →
    c ∉ cl ∧ c ≠ sid ∧ ∃ w, (c, w) ∈ l := by
  intro l
  induction l with
  | nil =>
    intro c h
    simp [fallbackFind] at h
  | cons p rest ih =>
    intro c h
    rw [show p = (p.1, p.2) from rfl] at h
    simp only [fallbackFind] at h
    by_cases hc : p.1 ≠ sid ∧ p.1 ∉ cl
    · rw [if_pos hc] at h
      injection h with h'
      subst h'
      exact ⟨hc.2, hc.1, p.2, by simp⟩
    · rw [if_neg hc] at h
      obtain ⟨h1, h2, w, h3⟩ := ih c h
      exact ⟨h1, h2, w, List.mem_cons_of_mem _ h3⟩

lemma IndexOk_scan_step {s : EngineState} (sid : SocketId) {t' : JsStr}
    {bucket : List SocketId}
    (hq : alGet s.tagQueues t' = some bucket) (hok : IndexOk s) :
    IndexOk { s with
      tagQueues := alSet s.tagQueues t'
          (scanBucket s.waitingUsers s.claimed sid bucket).1 } := by
  obtain ⟨hc, hs⟩ := hok
  constructor
  · intro p hp t ht
    simp only at hp ⊢
    rw [alGet_alSet]
    by_cases he : t' = t
    · subst he
      simp only [if_pos rfl, Option.getD_some]
      apply scanBucket_mem_keep
      · have := hc p hp t' ht
        rwa [hq, Option.getD_some] at this
      · exact alGet_isSome_of_mem hp
    · rw [if_neg he]
      exact hc p hp t ht
  · intro q hq' p hp hmem
    simp only at hq' hp
    rcases mem_alSet hq' with rfl | hold
    · have hbucket : p.1 ∈ bucket :=
        (scanBucket_sublist s.waitingUsers s.claimed sid bucket).subset hmem
      exact hs (t', bucket) (alGet_mem hq) p hp hbucket
    · exact hs q hold p hp hmem

lemma exactTier_success (sid : SocketId) :
    ∀ (nt : List JsStr) (s : EngineState), IndexOk s →
    (∃ c w, (c, w) ∈ s.waitingUsers ∧ c ≠ sid ∧ c ∉ s.claimed ∧
      ∃ t, t ∈ nt ∧ t ∈ w.normalizedTags) →
    ∃ c w tg, (exactTier sid nt s).2 = some (c, w, tg) := by
  intro nt
  induction nt with
  | nil =>
    intro s _ hsh
    obtain ⟨_, _, _, _, _, t, ht, _⟩ := hsh
    simp at ht
  | cons t' rest ih =>
    intro s hok hsh
    obtain ⟨c, w, hw, hcs, hccl, t, ht, htw⟩ := hsh
    cases heq : alGet s.tagQueues t' with
    | none =>
      have hne : t ≠ t' := by
        intro he
        subst he
        have := hok.1 (c, w) hw t htw
        rw [heq] at this
        simp at this
      have ht' : t ∈ rest := by
        rcases List.mem_cons.mp ht with h | h
        · exact absurd h hne
        · exact h
      have hrec := ih s hok ⟨c, w, hw, hcs, hccl, t, ht', htw⟩
      simpa only [exactTier, heq] using hrec
    | some bucket =>
      cases hr : (scanBucket s.waitingUsers s.claimed sid bucket).2 with
      | some cw =>
        refine ⟨cw.1, cw.2, t', ?_⟩
        simp only [exactTier, heq, hr]
      | none =>
        have hne : t ≠ t' := by
          intro he
          subst he
          have hcb : c ∈ bucket := by
            have := hok.1 (c, w) hw t htw
            rwa [heq, Option.getD_some] at this
          rcases scanBucket_none _ _ _ _ hr c hcb with h | h | h
          · exact hcs h
          · exact hccl h
          · have hsome := alGet_isSome_of_mem hw
            rw [h] at hsome
            simp at hsome
        have ht' : t ∈ rest := by
          rcases List.mem_cons.mp ht with h | h
          · exact absurd h hne
          · exact h
        have hrec := ih _ (IndexOk_scan_step sid heq hok)
          ⟨c, w, hw, hcs, hccl, t, ht', htw⟩
        simpa only [exactTier, heq, hr] using hrec

lemma exactTier_found_tag (sid : SocketId) :
    ∀ (nt : List JsStr) (s : EngineState) (c : SocketId) (w : WaitingUser)
      (tg : JsStr), IndexOk s →
    (exactTier sid nt s).2 = some (c, w, tg) →
    tg ∈ w.normalizedTags := by
  intro nt
  induction nt with
  | nil =>
    intro s c w tg _ h
    simp [exactTier] at h
  | cons t' rest ih =>
    intro s c w tg hok h
    simp only [exactTier] at h
    split at h
    · exact ih s c w tg hok h
    · rename_i bucket hq
      split at h
      · exact ih _ c w tg (IndexOk_scan_step sid hq hok) h
      · rename_i cw hr
        simp only [Option.some.injEq, Prod.mk.injEq] at h
        obtain ⟨rfl, rfl, rfl⟩ := h
        obtain ⟨_, hgetc, _, hcb⟩ := scanBucket_found _ _ _ bucket cw.1 cw.2 hr
        exact hok.2 (t', bucket) (alGet_mem hq) (cw.1, cw.2) (alGet_mem hgetc) hcb

lemma fallbackFind_none (cl : List SocketId) (sid : SocketId) :
    ∀ (l : List (SocketId × WaitingUser)),
    fallbackFind cl sid l = none → ∀ p ∈ l, p.1 = sid ∨ p.1 ∈ cl := by
  intro l
  induction l with
  | nil =>
    intro _ p hp
    simp at hp
  | cons q rest ih =>
    intro h p hp
    rw [show q = (q.1, q.2) from rfl] at h
    simp only [fallbackFind] at h
    by_cases hc : q.1 ≠ sid ∧ q.1 ∉ cl
    · rw [if_pos hc] at h
      cases h
    · rw [if_neg hc] at h
      rcases List.mem_cons.mp hp with rfl | hp'
      · push_neg at hc
        by_cases hs : p.1 = sid
        · exact Or.inl hs
        · exact Or.inr (hc hs)
      · exact ih h p hp'

lemma mem_length_le_one {α β : Type} {l : List (α × β)} {k : α} {v : β}
    (h : (k, v) ∈ l) (hl : l.length ≤ 1) : l = [(k, v)] := by
  cases l with
  | nil => simp at h
  | cons p rest =>
    cases rest with
    | nil =>
      rcases List.mem_cons.mp h with rfl | h'
      · rfl
      · simp at h'
    | cons q rest' => simp at hl

/-- The bookkeeping facts about `findMatch` used by the reachability
invariant: the pool and reverse lookup are untouched, a miss leaves the claim
set alone and means the fallback tier found nobody, and a hit claims exactly
the matched id, which was a waiting entry other than the searcher. -/
lemma findMatch_spec (sid : SocketId) (nt : List JsStr) (s : EngineState) :
    (findMatch sid nt s).1.waitingUsers = s.waitingUsers ∧
    (findMatch sid nt s).1.userRoomMap = s.userRoomMap ∧
    ((findMatch sid nt s).2.matchId = none →
      (findMatch sid nt s).1.claimed = s.claimed ∧
      fallbackFind s.claimed sid s.waitingUsers = none) ∧
    (∀ m, (findMatch sid nt s).2.matchId = some m →
      (findMatch sid nt s).1.claimed = setAdd s.claimed m ∧
      m ≠ sid ∧ ∃ w, (m, w) ∈ s.waitingUsers) := by
  have hwu := (exactTier_fields sid nt s).1
  have hcl := (exactTier_fields sid nt s).2.1
  have hurm := (exactTier_fields sid nt s).2.2.1
  rcases he : (exactTier sid nt s).2 with _ | cwt
  · by_cases hlen : (exactTier sid nt s).1.waitingUsers.length < 500
    · rcases hf : fuzzyFind nt (exactTier sid nt s).1.claimed sid
          (exactTier sid nt s).1.waitingUsers with _ | cwt2
      · rcases hb : fallbackFind (exactTier sid nt s).1.claimed sid
            (exactTier sid nt s).1.waitingUsers with _ | c
        · have hb' := hb
          rw [hwu, hcl] at hb'
          refine ⟨?_, ?_, ?_, ?_⟩
          · simp only [findMatch, he, if_pos hlen, hf, hb]
            exact hwu
          · simp only [findMatch, he, if_pos hlen, hf, hb]
            exact hurm
          · intro _
            constructor
            · simp only [findMatch, he, if_pos hlen, hf, hb]
              exact hcl
            · exact hb'
          · intro m hm
            simp only [findMatch, he, if_pos hlen, hf, hb] at hm
            cases hm
        · refine ⟨?_, ?_, ?_, ?_⟩
          · simp only [findMatch, he, if_pos hlen, hf, hb]
            exact hwu
          · simp only [findMatch, he, if_pos hlen, hf, hb]
            exact hurm
          · intro hm
            simp only [findMatch, he, if_pos hlen, hf, hb] at hm
            exact absurd hm (by simp)
          · intro m hm
            simp only [findMatch, he, if_pos hlen, hf, hb,
              Option.some.injEq] at hm
            subst hm
            obtain ⟨h1, h2, w, h3⟩ := fallbackFind_found _ _ _ _ hb
            rw [hwu] at h3
            refine ⟨?_, h2, w, h3⟩
            simp only [findMatch, he, if_pos hlen, hf, hb]
            rw [hcl]
      · refine ⟨?_, ?_, ?_, ?_⟩
        · simp only [findMatch, he, if_pos hlen, hf]
          exact hwu
        · simp only [findMatch, he, if_pos hlen, hf]
          exact hurm
        · intro hm
          simp only [findMatch, he, if_pos hlen, hf] at hm
          cases hm
        · intro m hm
          simp only [findMatch, he, if_pos hlen, hf, Option.some.injEq] at hm
          subst hm
          obtain ⟨h1, h2, h3⟩ :=
            fuzzyFind_found _ _ _ _ cwt2.1 cwt2.2.1 cwt2.2.2 hf
          rw [hwu] at h3
          refine ⟨?_, h2, cwt2.2.1, h3⟩
          simp only [findMatch, he, if_pos hlen, hf]
          rw [hcl]
    · rcases hb : fallbackFind (exactTier sid nt s).1.claimed sid
          (exactTier sid nt s).1.waitingUsers with _ | c
      · have hb' := hb
        rw [hwu, hcl] at hb'
        refine ⟨?_, ?_, ?_, ?_⟩
        · simp only [findMatch, he, if_neg hlen, hb]
          exact hwu
        · simp only [findMatch, he, if_neg hlen, hb]
          exact hurm
        · intro _
          constructor
          · simp only [findMatch, he, if_neg hlen, hb]
            exact hcl
          · exact hb'
        · intro m hm
          simp only [findMatch, he, if_neg hlen, hb] at hm
          cases hm
      · refine ⟨?_, ?_, ?_, ?_⟩
        · simp only [findMatch, he, if_neg hlen, hb]
          exact hwu
        · simp only [findMatch, he, if_neg hlen, hb]
          exact hurm
        · intro hm
          simp only [findMatch, he, if_neg hlen, hb] at hm
          exact absurd hm (by simp)
        · intro m hm
          simp only [findMatch, he, if_neg hlen, hb, Option.some.injEq] at hm
          subst hm
          obtain ⟨h1, h2, w, h3⟩ := fallbackFind_found _ _ _ _ hb
          rw [hwu] at h3
          refine ⟨?_, h2, w, h3⟩
          simp only [findMatch, he, if_neg hlen, hb]
          rw [hcl]
  · refine ⟨?_, ?_, ?_, ?_⟩
    · simp only [findMatch, he]
      exact hwu
    · simp only [findMatch, he]
      exact hurm
    · intro hm
      simp only [findMatch, he] at hm
      cases hm
    · intro m hm
      simp only [findMatch, he, Option.some.injEq] at hm
      subst hm
      obtain ⟨h1, h2, h3, _⟩ := exactTier_found_props sid nt s cwt.1 cwt.2.1 cwt.2.2 he
      refine ⟨?_, h3, cwt.2.1, alGet_mem h2⟩
      simp only [findMatch, he]
      rw [hcl]

/-! ## Lemmas about `endRoom` -/

lemma endRoom_none (roomId : RoomId) (reason : String) (skipper : Option SocketId)
    (s : EngineState) (h : alGet s.activeRooms roomId = none) :
    endRoom roomId reason skipper s = (s, []) := by
  unfold endRoom
  rw [h]

lemma endRoom_activeRooms_get (roomId : RoomId) (reason : String)
    (skipper : Option SocketId) (s : EngineState) :
    alGet (endRoom roomId reason skipper s).1.activeRooms roomId = none := by
  unfold endRoom
  cases hr : alGet s.activeRooms roomId with
  | none => simpa using hr
  | some room => simp [alGet_alDel]

/-! ## Preservation of `EngineInv` by every operation -/

lemma endRoom_inv (roomId : RoomId) (reason : String) (sk : Option SocketId)
    {s : EngineState} (h : EngineInv s) : EngineInv (endRoom roomId reason sk s).1 := by
  obtain ⟨hcl, hlen, hdisj⟩ := h
  unfold endRoom
  split
  · exact ⟨hcl, hlen, hdisj⟩
  · rename_i room hr
    refine ⟨?_, hlen, ?_⟩
    · simp only
      rw [hcl]
      rfl
    · intro p hp
      simp only
      rw [alGet_alDel]
      split
      · rfl
      · rw [alGet_alDel]
        split
        · rfl
        · exact hdisj p hp

lemma opConnect_inv (sid : SocketId) {s : EngineState} (h : EngineInv s) :
    EngineInv (opConnect sid s) :=
  h

lemma opMessage_fields (sid : SocketId) (roomId : RoomId) (tv : JsVal) (now : Int)
    (s : EngineState) :
    (opMessage sid roomId tv now s).1.waitingUsers = s.waitingUsers ∧
    (opMessage sid roomId tv now s).1.userRoomMap = s.userRoomMap ∧
    (opMessage sid roomId tv now s).1.claimed = s.claimed := by
  unfold opMessage
  split
  · exact ⟨rfl, rfl, rfl⟩
  · split
    · exact ⟨rfl, rfl, rfl⟩
    · dsimp only
      split
      · exact ⟨rfl, rfl, rfl⟩
      · split
        · exact ⟨rfl, rfl, rfl⟩
        · split
          · exact ⟨rfl, rfl, rfl⟩
          · exact ⟨rfl, rfl, rfl⟩

lemma opMessage_inv (sid : SocketId) (roomId : RoomId) (tv : JsVal) (now : Int)
    {s : EngineState} (h : EngineInv s) : EngineInv (opMessage sid roomId tv now s).1 := by
  obtain ⟨h1, h2, h3⟩ := opMessage_fields sid roomId tv now s
  obtain ⟨hcl, hlen, hdisj⟩ := h
  refine ⟨h3.trans hcl, ?_, ?_⟩
  · rw [h1]
    exact hlen
  · intro p hp
    rw [h1] at hp
    rw [h2]
    exact hdisj p hp

lemma opTyping_fields (sid : SocketId) (roomId : RoomId) (isTyping : Bool) (now : Int)
    (s : EngineState) :
    (opTyping sid roomId isTyping now s).1.waitingUsers = s.waitingUsers ∧
    (opTyping sid roomId isTyping now s).1.userRoomMap = s.userRoomMap ∧
    (opTyping sid roomId isTyping now s).1.claimed = s.claimed := by
  have hc : (checkTypingRateLimit sid now s).1.waitingUsers = s.waitingUsers ∧
      (checkTypingRateLimit sid now s).1.userRoomMap = s.userRoomMap ∧
      (checkTypingRateLimit sid now s).1.claimed = s.claimed := by
    unfold checkTypingRateLimit
    dsimp only
    split
    · exact ⟨rfl, rfl, rfl⟩
    · exact ⟨rfl, rfl, rfl⟩
  unfold opTyping
  dsimp only
  split
  · exact hc
  · split
    · exact hc
    · split
      · exact hc
      · exact hc

lemma opTyping_inv (sid : SocketId) (roomId : RoomId) (isTyping : Bool) (now : Int)
    {s : EngineState} (h : EngineInv s) :
    EngineInv (opTyping sid roomId isTyping now s).1 := by
  obtain ⟨h1, h2, h3⟩ := opTyping_fields sid roomId isTyping now s
  obtain ⟨hcl, hlen, hdisj⟩ := h
  refine ⟨h3.trans hcl, ?_, ?_⟩
  · rw [h1]
    exact hlen
  · intro p hp
    rw [h1] at hp
    rw [h2]
    exact hdisj p hp

lemma opSkip_inv (sid : SocketId) {s : EngineState} (h : EngineInv s) :
    EngineInv (opSkip sid s).1 := by
  obtain ⟨hcl, hlen, hdisj⟩ := h
  unfold opSkip
  split
  · refine ⟨?_, ?_, ?_⟩
    · simp only
      rw [hcl]
      rfl
    · exact le_trans (alDel_length_le _ _) hlen
    · intro p hp
      exact hdisj p (alDel_subset hp)
  · exact endRoom_inv _ _ _ ⟨hcl, hlen, hdisj⟩

lemma opEnd_inv (sid : SocketId) (roomId : RoomId) {s : EngineState}
    (h : EngineInv s) : EngineInv (opEnd sid roomId s).1 := by
  unfold opEnd
  split
  · exact h
  · split
    · exact h
    · exact endRoom_inv _ _ _ h

lemma opDisconnect_inv (sid : SocketId) {s : EngineState} (h : EngineInv s) :
    EngineInv (opDisconnect sid s).1 := by
  obtain ⟨hcl, hlen, hdisj⟩ := h
  have h1 : EngineInv { s with
      waitingUsers := alDel s.waitingUsers sid,
      tagQueues := removeFromTagQueues s.tagQueues sid,
      rateLimits := alDel s.rateLimits sid,
      claimed := setDel s.claimed sid,
      sockets := setDel s.sockets sid } := by
    refine ⟨?_, le_trans (alDel_length_le _ _) hlen, ?_⟩
    · simp only
      rw [hcl]
      rfl
    · intro p hp
      exact hdisj p (alDel_subset hp)
  unfold opDisconnect
  dsimp only
  split
  · exact h1
  · exact endRoom_inv _ _ _ h1

lemma fireRoomTimer_inv (roomId : RoomId) {s : EngineState} (h : EngineInv s) :
    EngineInv (fireRoomTimer roomId s).1 := by
  unfold fireRoomTimer
  split
  · exact endRoom_inv _ _ _ h
  · exact h

lemma inactivitySweep_inv (now : Int) {s : EngineState} (h : EngineInv s) :
    EngineInv (inactivitySweep now s).1 := by
  unfold inactivitySweep
  generalize s.activeRooms = l
  have main : ∀ (l : List (RoomId × ActiveRoom)) (acc : EngineState × List OutEvent),
      EngineInv acc.1 → EngineInv ((l.foldl (fun acc p =>
        if now - p.2.lastActivity > 900000 then
          let er := endRoom p.1 "Inactivity timeout" none acc.1
          (er.1, acc.2 ++ er.2)
        else acc) acc).1) := by
    intro l
    induction l with
    | nil =>
      intro acc hacc
      exact hacc
    | cons p ps ih =>
      intro acc hacc
      simp only [List.foldl_cons]
      apply ih
      split
      · exact endRoom_inv _ _ _ hacc
      · exact hacc
  exact main l (s, []) h

lemma staleSweep_inv (now : Int) {s : EngineState} (h : EngineInv s) :
    EngineInv (staleSweep now s) := by
  unfold staleSweep
  generalize s.waitingUsers = l
  have main : ∀ (l : List (SocketId × WaitingUser)) (acc : EngineState),
      EngineInv acc → EngineInv (l.foldl (fun acc p =>
        if now - p.2.joinedAt > 300000 then
          { acc with
            waitingUsers := alDel acc.waitingUsers p.1,
            tagQueues := removeFromTagQueues acc.tagQueues p.1,
            claimed := setDel acc.claimed p.1 }
        else acc) acc) := by
    intro l
    induction l with
    | nil =>
      intro acc hacc
      exact hacc
    | cons p ps ih =>
      intro acc hacc
      simp only [List.foldl_cons]
      apply ih
      split
      · obtain ⟨hcl, hlen, hdisj⟩ := hacc
        refine ⟨?_, le_trans (alDel_length_le _ _) hlen, ?_⟩
        · simp only
          rw [hcl]
          rfl
        · intro q hq
          exact hdisj q (alDel_subset hq)
      · exact hacc
  exact main l s h

lemma opFind_inv (sid : SocketId) (rawTags : JsInput) (now : Int) (rid : RoomId)
    (rand : Nat) {s : EngineState} (h : EngineInv s) :
    EngineInv (opFind sid rawTags now rid rand s).1 := by
  obtain ⟨hcl0, hlen0, hdisj0⟩ := h
  by_cases hin : (alGet s.userRoomMap sid).isSome = true
  · simp only [opFind, hin, if_true]
    exact ⟨hcl0, hlen0, hdisj0⟩
  · have hnone : alGet s.userRoomMap sid = none := by
      rcases hg : alGet s.userRoomMap sid with _ | r
      · rfl
      · rw [hg] at hin
        simp at hin
    obtain ⟨hwu, hurm, hmiss, hhit⟩ :=
      findMatch_spec sid ((validateTags rawTags).map normalizeTag) s
    rcases hm : (findMatch sid ((validateTags rawTags).map normalizeTag) s).2.matchId
        with _ | m
    · obtain ⟨hclaim, hfb⟩ := hmiss hm
      simp only [opFind, hin, Bool.false_eq_true, if_false, hm]
      refine ⟨?_, ?_, ?_⟩
      · rw [hclaim, hcl0]
      · rw [hwu]
        rcases hwl : s.waitingUsers with _ | ⟨p, ps⟩
        · simp [alSet]
        · rcases ps with _ | ⟨q, qs⟩
          · have hp1 : p.1 = sid := by
              rcases fallbackFind_none s.claimed sid s.waitingUsers hfb p
                  (by rw [hwl]; simp) with hx | hx
              · exact hx
              · rw [hcl0] at hx
                simp at hx
            rw [show p = (p.1, p.2) from rfl, hp1]
            simp [alSet]
          · rw [hwl] at hlen0
            simp at hlen0
      · intro p hp
        rw [hwu] at hp
        rw [hurm]
        rcases mem_alSet hp with rfl | hold
        · exact hnone
        · exact hdisj0 p hold
    · obtain ⟨hclaim, hmsid, w, hwm⟩ := hhit m hm
      simp only [opFind, hin, Bool.false_eq_true, if_false, hm]
      have hsingle : s.waitingUsers = [(m, w)] := mem_length_le_one hwm hlen0
      refine ⟨?_, ?_, ?_⟩
      · rw [hclaim, hcl0]
        simp [setAdd, setDel]
      · rw [hwu, hsingle]
        simp [alDel]
      · intro p hp
        rw [hwu, hsingle] at hp
        simp [alDel] at hp

/-- One operation preserves the invariant. -/
lemma applyOp_inv (op : Op) {s : EngineState} (h : EngineInv s) :
    EngineInv (applyOp s op) := by
  cases op with
  | connect sid => exact opConnect_inv sid h
  | find sid rawTags now rid rand => exact opFind_inv sid rawTags now rid rand h
  | message sid roomId tv now => exact opMessage_inv sid roomId tv now h
  | typing sid roomId isTyping now => exact opTyping_inv sid roomId isTyping now h
  | skip sid => exact opSkip_inv sid h
  | endDebate sid roomId => exact opEnd_inv sid roomId h
  | disconnect sid => exact opDisconnect_inv sid h
  | timerFire roomId => exact fireRoomTimer_inv roomId h
  | inactivity now => exact inactivitySweep_inv now h
  | stale now => exact staleSweep_inv now h

/-- Every reachable state satisfies the invariant. -/
lemma runOps_inv (ops : List Op) : EngineInv (runOps ops) := by
  have main : ∀ (l : List Op) (s : EngineState), EngineInv s →
      EngineInv (l.foldl applyOp s) := by
    intro l
    induction l with
    | nil =>
      intro s hs
      exact hs
    | cons op rest ih =>
      intro s hs
      simp only [List.foldl_cons]
      exact ih _ (applyOp_inv op hs)
  exact main ops initState ⟨rfl, by simp [initState], by intro p hp; simp [initState] at hp⟩

/-! ## Lemmas about the rate limiter -/

lemma checkMessageRateLimit_no_reset {s : EngineState} {sid : SocketId} {now : Int}
    {ms : List Int} {r0 lt : Int}
    (hget : alGet s.rateLimits sid = some ⟨ms, r0, lt⟩)
    (hnr : ¬ now - r0 > 60000)
    (hkeep : ∀ m ∈ ms, now - m < 60000)
    (hlen : ms.length + 1 ≤ 50) :
    (checkMessageRateLimit sid now s).2 = decide (ms.length + 1 ≤ 30) ∧
    (checkMessageRateLimit sid now s).1.rateLimits
      = alSet s.rateLimits sid ⟨ms ++ [now], r0, lt⟩ := by
  have hfilter : (ms ++ [now]).filter (fun time => decide (now - time < 60000))
      = ms ++ [now] := by
    apply List.filter_eq_self.mpr
    intro a ha
    rcases List.mem_append.mp ha with h | h
    · simpa using hkeep a h
    · simp at h
      subst h
      simp
  have hdrop : (ms ++ [now]).length - 50 = 0 := by
    rw [List.length_append]
    simp at hlen ⊢
    omega
  constructor
  · simp only [checkMessageRateLimit, hget, Option.getD_some]
    rw [if_neg hnr, hfilter, hdrop, List.drop_zero]
    simp [List.length_append]
  · simp only [checkMessageRateLimit, hget, Option.getD_some]
    rw [if_neg hnr, hfilter, hdrop, List.drop_zero]

lemma checkMessageRateLimit_fresh {s : EngineState} {sid : SocketId} {now : Int}
    (hget : alGet s.rateLimits sid = none) :
    (checkMessageRateLimit sid now s).2 = true ∧
    (checkMessageRateLimit sid now s).1.rateLimits
      = alSet s.rateLimits sid ⟨[now], now, 0⟩ := by
  have h0 : ¬ (now - now > 60000) := by omega
  have hfilter : [now].filter (fun time => decide (now - time < 60000)) = [now] := by
    simp
  constructor
  · simp only [checkMessageRateLimit, hget, Option.getD_none]
    rw [if_neg h0]
    simp only [List.nil_append, hfilter]
    simp
  · simp only [checkMessageRateLimit, hget, Option.getD_none]
    rw [if_neg h0]
    simp only [List.nil_append, hfilter]
    simp

lemma rlResults_window (sid : SocketId) :
    ∀ (ts : List Int) (s : EngineState) (ms : List Int) (r0 lt : Int),
    alGet s.rateLimits sid = some ⟨ms, r0, lt⟩ →
    (∀ t ∈ ts, t - r0 ≤ 60000) →
    (∀ t ∈ ts, ∀ m ∈ ms, t - m < 60000) →
    (∀ a ∈ ts, ∀ b ∈ ts, a - b < 60000) →
    ms.length + ts.length ≤ 50 →
    rlResults sid s ts
      = (List.range ts.length).map (fun i => decide (ms.length + i + 1 ≤ 30)) := by
  intro ts
  induction ts with
  | nil =>
    intro s ms r0 lt _ _ _ _ _
    simp [rlResults]
  | cons t rest ih =>
    intro s ms r0 lt hget hr0 hms hdiff hlen
    have hlenA : (ms ++ [t]).length = ms.length + 1 := by simp
    obtain ⟨hv, hrl⟩ := checkMessageRateLimit_no_reset hget
      (by have := hr0 t (by simp); omega)
      (fun mm hmm => hms t (by simp) mm hmm)
      (by simp only [List.length_cons] at hlen; omega)
    have hget' : alGet (checkMessageRateLimit sid t s).1.rateLimits sid
        = some ⟨ms ++ [t], r0, lt⟩ := by
      rw [hrl, alGet_alSet]
      simp
    have hr0' : ∀ u ∈ rest, u - r0 ≤ 60000 := by
      intro u hu
      exact hr0 u (by simp [hu])
    have hms' : ∀ u ∈ rest, ∀ mm ∈ ms ++ [t], u - mm < 60000 := by
      intro u hu mm hmm
      rcases List.mem_append.mp hmm with h | h
      · exact hms u (by simp [hu]) mm h
      · simp only [List.mem_singleton] at h
        rw [h]
        exact hdiff u (by simp [hu]) t (by simp)
    have hdiff' : ∀ a ∈ rest, ∀ b ∈ rest, a - b < 60000 := by
      intro a ha b hb
      exact hdiff a (by simp [ha]) b (by simp [hb])
    have hlen' : (ms ++ [t]).length + rest.length ≤ 50 := by
      rw [hlenA]
      simp only [List.length_cons] at hlen
      omega
    have hmap : ∀ (n k : Nat),
        (List.range (n + 1)).map (fun i => decide (k + i + 1 ≤ 30))
          = decide (k + 1 ≤ 30) ::
            (List.range n).map (fun i => decide (k + 1 + i + 1 ≤ 30)) := by
      intro n k
      rw [List.range_succ_eq_map, List.map_cons, List.map_map]
      refine List.cons_eq_cons.mpr ⟨?_, ?_⟩
      · exact decide_eq_decide.mpr (by omega)
      · apply List.map_congr_left
        intro i _
        simp only [Function.comp_apply]
        exact decide_eq_decide.mpr (by omega)
    simp only [rlResults]
    rw [hv]
    rw [ih (checkMessageRateLimit sid t s).1 (ms ++ [t]) r0 lt hget' hr0' hms' hdiff' hlen']
    rw [List.length_cons, hmap]
    refine List.cons_eq_cons.mpr ⟨rfl, ?_⟩
    apply List.map_congr_left
    intro i _
    exact decide_eq_decide.mpr (by rw [hlenA])

/-! ## The claims -/

/-- C9: Tag normalization is idempotent: for every string `t`,
`normalizeTag (normalizeTag t) = normalizeTag t`. -/
theorem C9_normalizeTag_idempotent (t : JsStr) :
    normalizeTag (normalizeTag t) = normalizeTag t := by
  have hmem : ∀ c ∈ normalizeTag t, isLowerAlnum c = true :=
    fun c hc => mem_normalizeTag hc
  show (jsTrim (jsToLower (normalizeTag t))).filter isLowerAlnum = normalizeTag t
  rw [jsToLower_eq_self hmem, jsTrim_eq_self (fun c hc => not_ws (hmem c hc))]
  exact List.filter_eq_self.mpr hmem

/-- C8: for every input value, `validateTags` returns at most 10 tags, each a
non-empty string of at most 24 characters, no two sharing a normalized form,
and (for an array input) the survivors appear in the same relative order as in
the input: the result is a sublist of the input's valid strings, trimmed. -/
theorem C8_validateTags_spec (v : JsInput) :
    (validateTags v).length ≤ 10 ∧
    (∀ t ∈ validateTags v, t ≠ [] ∧ t.length ≤ 24) ∧
    (validateTags v).Pairwise (fun a b => normalizeTag a ≠ normalizeTag b) ∧
    (∀ xs, v = JsInput.arr xs →
      (validateTags v).Sublist ((xs.filterMap validStr).map jsTrim)) := by
  cases v with
  | notArray =>
    refine ⟨by simp [validateTags], by simp [validateTags], by simp [validateTags], ?_⟩
    intro xs hxs
    cases hxs
  | arr xs =>
    have hsub1 : (validateTags (JsInput.arr xs)).Sublist
        ((((xs.filterMap validStr).take 10).map jsTrim).filter (· ≠ [])) :=
      dedupeByNorm_sublist _ _
    refine ⟨?_, ?_, dedupeByNorm_pairwise _ _, ?_⟩
    · calc (validateTags (JsInput.arr xs)).length
          ≤ ((((xs.filterMap validStr).take 10).map jsTrim).filter (· ≠ [])).length :=
            hsub1.length_le
        _ ≤ (((xs.filterMap validStr).take 10).map jsTrim).length :=
            (List.filter_sublist _).length_le
        _ = ((xs.filterMap validStr).take 10).length := List.length_map _ _
        _ ≤ 10 := List.length_take_le _ _
    · intro t ht
      have ht2 := List.mem_filter.mp (hsub1.subset ht)
      have hne : t ≠ [] := by simpa using ht2.2
      rcases List.mem_map.mp ht2.1 with ⟨s, hs, rfl⟩
      have hs' : s ∈ xs.filterMap validStr := List.mem_of_mem_take hs
      rcases List.mem_filterMap.mp hs' with ⟨v', hv', hvs⟩
      exact ⟨hne, le_trans (jsTrim_length_le s) (validStr_some hvs).2⟩
    · intro ys hys
      injection hys with h'
      subst h'
      exact hsub1.trans
        ((List.filter_sublist _).trans ((List.take_sublist _ _).map jsTrim))

/-- Witness for C8: the order conclusion at a concrete input. -/
theorem C8_validateTags_spec_witness :
    (validateTags (JsInput.arr [JsVal.str " Cats! ".toList,
        JsVal.str "cats".toList, JsVal.other])).Sublist
      (([JsVal.str " Cats! ".toList, JsVal.str "cats".toList,
        JsVal.other].filterMap validStr).map jsTrim) :=
  (C8_validateTags_spec (JsInput.arr [JsVal.str " Cats! ".toList,
    JsVal.str "cats".toList, JsVal.other])).2.2.2 _ rfl

set_option maxRecDepth 4000 in
/-- C3 as stated fails on the code: `checkMessageRateLimit` is not the pure
sliding window the claim describes.  After a message at time 0 and thirty at
time 59000, a call at 61000 triggers the wholesale `lastReset` wipe and
returns `true`, although 31 entries of the appended-and-pruned sliding window
lie within the last 60 seconds, so the claimed "true iff pruned count ≤ 30"
is violated.  The state is reached by `message` operations alone. -/
theorem C3_counterexample :
    (checkMessageRateLimit "A" 61000 (runOps (Op.message "A" "r" (JsVal.str ['h']) 0 ::
        List.replicate 30 (Op.message "A" "r" (JsVal.str ['h']) 59000)))).2 = true ∧
    30 < ((((alGet (runOps (Op.message "A" "r" (JsVal.str ['h']) 0 ::
          List.replicate 30 (Op.message "A" "r" (JsVal.str ['h']) 59000))).rateLimits
            "A").getD ⟨[], 61000, 0⟩).messages ++ [61000]).filter
          (fun time => (61000 : Int) - time < 60000)).length := by
  decide

/-- C3 amended: `checkMessageRateLimit` appends now, wipes the window
wholesale when more than 60s passed since `lastReset`, prunes entries at
least 60s old, caps the kept window at 50, and allows iff the kept count is
at most 30.  Consequently the claimed 31-call scenario holds from a fresh
connection: for any 31 calls with no prior rate-limit state, all falling
within one 60-second span, the first 30 return true and the 31st false. -/
theorem C3_thirty_then_reject (s : EngineState) (sid : SocketId) (ts : List Int)
    (hfresh : alGet s.rateLimits sid = none)
    (hlen : ts.length = 31)
    (hspan : ∀ a ∈ ts, ∀ b ∈ ts, a - b < 60000) :
    rlResults sid s ts = List.replicate 30 true ++ [false] := by
  cases ts with
  | nil => simp at hlen
  | cons t rest =>
    have hrest : rest.length = 30 := by
      simp only [List.length_cons] at hlen
      omega
    obtain ⟨hv1, hrl1⟩ := checkMessageRateLimit_fresh hfresh
    have hget1 : alGet (checkMessageRateLimit sid t s).1.rateLimits sid
        = some ⟨[t], t, 0⟩ := by
      rw [hrl1, alGet_alSet]
      simp
    simp only [rlResults]
    rw [hv1]
    rw [rlResults_window sid rest (checkMessageRateLimit sid t s).1 [t] t 0 hget1
      (fun u hu => by have := hspan u (by simp [hu]) t (by simp); omega)
      (fun u hu mm hmm => by
        simp only [List.mem_singleton] at hmm
        rw [hmm]
        exact hspan u (by simp [hu]) t (by simp))
      (fun a ha b hb => hspan a (by simp [ha]) b (by simp [hb]))
      (by rw [hrest]; simp)]
    rw [hrest]
    simp only [List.length_singleton]
    rfl

/-- Witness for the amended C3 at 31 calls at one instant. -/
theorem C3_thirty_then_reject_witness :
    rlResults "A" initState (List.replicate 31 0)
      = List.replicate 30 true ++ [false] :=
  C3_thirty_then_reject initState "A" (List.replicate 31 0) rfl (by decide)
    (by decide)

/-- C4: `endRoom` is idempotent: a second call with the same roomId leaves the
state of the first call unchanged and emits no further event, so the
termination notification and the reverse-lookup cleanup happen exactly once. -/
theorem C4_endRoom_idempotent (s : EngineState) (roomId : RoomId) (reason : String)
    (skipper : Option SocketId) :
    (endRoom roomId reason skipper (endRoom roomId reason skipper s).1).1
        = (endRoom roomId reason skipper s).1 ∧
    (endRoom roomId reason skipper (endRoom roomId reason skipper s).1).2 = [] := by
  have h2 := endRoom_none roomId reason skipper (endRoom roomId reason skipper s).1
      (endRoom_activeRooms_get roomId reason skipper s)
  rw [h2]
  exact ⟨rfl, rfl⟩

/-- C7: once `endRoom` has completed, the room's duration timer is cancelled
and a later duration-timer fire for that roomId emits no further event and
changes nothing. -/
theorem C7_timer_cancelled_after_end (s : EngineState) (roomId : RoomId)
    (reason : String) (skipper : Option SocketId) :
    ((alGet s.activeRooms roomId).isSome = true →
      roomId ∉ (endRoom roomId reason skipper s).1.roomTimers) ∧
    fireRoomTimer roomId (endRoom roomId reason skipper s).1
      = ((endRoom roomId reason skipper s).1, []) := by
  constructor
  · intro hsome
    rcases Option.isSome_iff_exists.mp hsome with ⟨room, hr⟩
    unfold endRoom
    rw [hr]
    simpa [clearRoomTimer] using not_mem_setDel_self s.roomTimers roomId
  · unfold fireRoomTimer
    split
    · exact endRoom_none roomId "Time expired" none _
        (endRoom_activeRooms_get roomId reason skipper s)
    · rfl

/-- Witness for C7 at a concrete ended-by-skip room. -/
theorem C7_timer_cancelled_after_end_witness :
    "r1" ∉ (endRoom "r1" "User skipped" (some "A")
      ⟨[], [("r1", ⟨"r1", "A", "B", [], 0, 300000, false, none, 0⟩)],
       [("A", "r1"), ("B", "r1")], ["r1"], [], [], [], ["A", "B"],
       ⟨0, 0, 0, 0, 0, 0, 0, 0, 0, 0⟩⟩).1.roomTimers :=
  (C7_timer_cancelled_after_end
    ⟨[], [("r1", ⟨"r1", "A", "B", [], 0, 300000, false, none, 0⟩)],
     [("A", "r1"), ("B", "r1")], ["r1"], [], [], [], ["A", "B"],
     ⟨0, 0, 0, 0, 0, 0, 0, 0, 0, 0⟩⟩ "r1" "User skipped" (some "A")).1 (by decide)

/-- C1: when some waiting connection other than the searcher is unclaimed,
still present in the waiting pool, and shares a normalized tag with the
searcher, `findMatch` (with a tag index that is complete and sound for the
pool, the pool's normalized tags derived from its raw tags, and raw tags
non-empty, as the `find` handler maintains) selects an exact-tier candidate:
a non-null matchId with a non-null commonTag taken from that candidate's raw
tags, and only the exact-tier counter is incremented — the fuzzy-tier and
fallback-tier counters are untouched. -/
theorem C1_exact_tier_priority (s : EngineState) (sid : SocketId) (nt : List JsStr)
    (hComplete : ∀ p ∈ s.waitingUsers, ∀ t ∈ p.2.normalizedTags,
      p.1 ∈ (alGet s.tagQueues t).getD [])
    (hSound : ∀ q ∈ s.tagQueues, ∀ p ∈ s.waitingUsers, p.1 ∈ q.2 →
      q.1 ∈ p.2.normalizedTags)
    (hCoh : ∀ p ∈ s.waitingUsers, p.2.normalizedTags = p.2.tags.map normalizeTag)
    (hNE : ∀ p ∈ s.waitingUsers, ∀ t ∈ p.2.tags, t ≠ [])
    (hShared : ∃ c w, (c, w) ∈ s.waitingUsers ∧ c ≠ sid ∧ c ∉ s.claimed ∧
      ∃ t, t ∈ nt ∧ t ∈ w.normalizedTags) :
    ∃ m ct, (findMatch sid nt s).2.matchId = some m ∧
      (findMatch sid nt s).2.commonTag = some ct ∧
      (∃ w', alGet s.waitingUsers m = some w' ∧ ct ∈ w'.tags) ∧
      (findMatch sid nt s).1.metrics.exactTagMatches
        = s.metrics.exactTagMatches + 1 ∧
      (findMatch sid nt s).1.metrics.fuzzyTagMatches = s.metrics.fuzzyTagMatches ∧
      (findMatch sid nt s).1.metrics.fallbackMatches
        = s.metrics.fallbackMatches := by
  obtain ⟨c0, w0, tg0, he⟩ := exactTier_success sid nt s ⟨hComplete, hSound⟩ hShared
  obtain ⟨hncl, hget, hnsid, htg_nt⟩ := exactTier_found_props sid nt s c0 w0 tg0 he
  have htg_w : tg0 ∈ w0.normalizedTags :=
    exactTier_found_tag sid nt s c0 w0 tg0 ⟨hComplete, hSound⟩ he
  have hw_mem : (c0, w0) ∈ s.waitingUsers := alGet_mem hget
  have hraw : ∃ raw ∈ w0.tags, normalizeTag raw = tg0 := by
    have hcoh := hCoh (c0, w0) hw_mem
    simp only at hcoh
    rw [hcoh] at htg_w
    rcases List.mem_map.mp htg_w with ⟨raw, hraw, hn⟩
    exact ⟨raw, hraw, hn⟩
  have hfind : ∃ r, w0.tags.find? (fun u => normalizeTag u = tg0) = some r := by
    obtain ⟨raw, hrawm, hn⟩ := hraw
    have hsome : (w0.tags.find? (fun u => normalizeTag u = tg0)).isSome := by
      rw [List.find?_isSome]
      exact ⟨raw, hrawm, by simp [hn]⟩
    exact Option.isSome_iff_exists.mp hsome
  obtain ⟨r, hrfind⟩ := hfind
  have hr_mem : r ∈ w0.tags := List.mem_of_find?_eq_some hrfind
  have hr_ne : r ≠ [] := hNE (c0, w0) hw_mem r hr_mem
  have horig : jsOrElse (w0.tags.find? (fun u => normalizeTag u = tg0)) tg0 = r := by
    rw [hrfind]
    simp [jsOrElse, hr_ne]
  have hm := (exactTier_fields sid nt s).2.2.2.1
  refine ⟨c0, r, ?_, ?_, ⟨w0, hget, hr_mem⟩, ?_, ?_, ?_⟩
  · simp only [findMatch, he]
  · simp only [findMatch, he]
    rw [horig]
  · simp only [findMatch, he]
    rw [hm]
  · simp only [findMatch, he]
    rw [hm]
  · simp only [findMatch, he]
    rw [hm]

/-- Witness for C1: searcher A with tag cats, B waiting with raw tag Cats!
indexed under cats. -/
theorem C1_exact_tier_priority_witness :
    ∃ m ct, (findMatch "A" ["cats".toList]
        ⟨[("B", ⟨"B", ["Cats!".toList], ["cats".toList], 0⟩)], [], [], [], [], [],
         [("cats".toList, ["B"])], [], ⟨0, 0, 0, 0, 0, 0, 0, 0, 0, 0⟩⟩).2.matchId
          = some m ∧
      (findMatch "A" ["cats".toList]
        ⟨[("B", ⟨"B", ["Cats!".toList], ["cats".toList], 0⟩)], [], [], [], [], [],
         [("cats".toList, ["B"])], [], ⟨0, 0, 0, 0, 0, 0, 0, 0, 0, 0⟩⟩).2.commonTag
          = some ct ∧
      (∃ w', alGet (⟨[("B", ⟨"B", ["Cats!".toList], ["cats".toList], 0⟩)], [], [],
          [], [], [], [("cats".toList, ["B"])], [],
          ⟨0, 0, 0, 0, 0, 0, 0, 0, 0, 0⟩⟩ : EngineState).waitingUsers m = some w' ∧
        ct ∈ w'.tags) ∧
      (findMatch "A" ["cats".toList]
        ⟨[("B", ⟨"B", ["Cats!".toList], ["cats".toList], 0⟩)], [], [], [], [], [],
         [("cats".toList, ["B"])], [],
         ⟨0, 0, 0, 0, 0, 0, 0, 0, 0, 0⟩⟩).1.metrics.exactTagMatches
        = (⟨[("B", ⟨"B", ["Cats!".toList], ["cats".toList], 0⟩)], [], [], [], [],
           [], [("cats".toList, ["B"])], [],
           ⟨0, 0, 0, 0, 0, 0, 0, 0, 0, 0⟩⟩ : EngineState).metrics.exactTagMatches
          + 1 ∧
      (findMatch "A" ["cats".toList]
        ⟨[("B", ⟨"B", ["Cats!".toList], ["cats".toList], 0⟩)], [], [], [], [], [],
         [("cats".toList, ["B"])], [],
         ⟨0, 0, 0, 0, 0, 0, 0, 0, 0, 0⟩⟩).1.metrics.fuzzyTagMatches
        = (⟨[("B", ⟨"B", ["Cats!".toList], ["cats".toList], 0⟩)], [], [], [], [],
           [], [("cats".toList, ["B"])], [],
           ⟨0, 0, 0, 0, 0, 0, 0, 0, 0, 0⟩⟩ : EngineState).metrics.fuzzyTagMatches ∧
      (findMatch "A" ["cats".toList]
        ⟨[("B", ⟨"B", ["Cats!".toList], ["cats".toList], 0⟩)], [], [], [], [], [],
         [("cats".toList, ["B"])], [],
         ⟨0, 0, 0, 0, 0, 0, 0, 0, 0, 0⟩⟩).1.metrics.fallbackMatches
        = (⟨[("B", ⟨"B", ["Cats!".toList], ["cats".toList], 0⟩)], [], [], [], [],
           [], [("cats".toList, ["B"])], [],
           ⟨0, 0, 0, 0, 0, 0, 0, 0, 0, 0⟩⟩ : EngineState).metrics.fallbackMatches :=
  C1_exact_tier_priority
    ⟨[("B", ⟨"B", ["Cats!".toList], ["cats".toList], 0⟩)], [], [], [], [], [],
     [("cats".toList, ["B"])], [], ⟨0, 0, 0, 0, 0, 0, 0, 0, 0, 0⟩⟩
    "A" ["cats".toList]
    (by decide) (by decide) (by decide) (by decide)
    ⟨"B", ⟨"B", ["Cats!".toList], ["cats".toList], 0⟩, by decide, by decide,
     by decide, "cats".toList, by decide, by decide⟩

/-- C2: a connectionId in the claim set before a `findMatch` call is never
returned as matchId, and whenever `findMatch` returns a matchId it is in the
claim set of the post-state of the same call. -/
theorem C2_claim_atomicity (s : EngineState) (sid : SocketId) (nt : List JsStr)
    (m : SocketId) (h : (findMatch sid nt s).2.matchId = some m) :
    m ∉ s.claimed ∧ m ∈ (findMatch sid nt s).1.claimed := by
  have hcl := (exactTier_fields sid nt s).2.1
  have hwu := (exactTier_fields sid nt s).1
  rcases he : (exactTier sid nt s).2 with _ | cwt
  · by_cases hlen : (exactTier sid nt s).1.waitingUsers.length < 500
    · rcases hf : fuzzyFind nt (exactTier sid nt s).1.claimed sid
          (exactTier sid nt s).1.waitingUsers with _ | cwt2
      · rcases hb : fallbackFind (exactTier sid nt s).1.claimed sid
            (exactTier sid nt s).1.waitingUsers with _ | c
        · simp only [findMatch, he, if_pos hlen, hf, hb] at h
          exact absurd h (by simp)
        · simp only [findMatch, he, if_pos hlen, hf, hb, Option.some.injEq] at h
          subst h
          obtain ⟨h1, _, _⟩ := fallbackFind_found _ _ _ _ hb
          refine ⟨by rwa [hcl] at h1, ?_⟩
          simp only [findMatch, he, if_pos hlen, hf, hb]
          exact mem_setAdd_self _ _
      · simp only [findMatch, he, if_pos hlen, hf, Option.some.injEq] at h
        subst h
        obtain ⟨h1, _, _⟩ := fuzzyFind_found _ _ _ _ cwt2.1 cwt2.2.1 cwt2.2.2 hf
        refine ⟨by rwa [hcl] at h1, ?_⟩
        simp only [findMatch, he, if_pos hlen, hf]
        exact mem_setAdd_self _ _
    · rcases hb : fallbackFind (exactTier sid nt s).1.claimed sid
          (exactTier sid nt s).1.waitingUsers with _ | c
      · simp only [findMatch, he, if_neg hlen, hb] at h
        exact absurd h (by simp)
      · simp only [findMatch, he, if_neg hlen, hb, Option.some.injEq] at h
        subst h
        obtain ⟨h1, _, _⟩ := fallbackFind_found _ _ _ _ hb
        refine ⟨by rwa [hcl] at h1, ?_⟩
        simp only [findMatch, he, if_neg hlen, hb]
        exact mem_setAdd_self _ _
  · simp only [findMatch, he, Option.some.injEq] at h
    subst h
    obtain ⟨h1, _, _, _⟩ := exactTier_found_props sid nt s cwt.1 cwt.2.1 cwt.2.2 he
    refine ⟨h1, ?_⟩
    simp only [findMatch, he]
    exact mem_setAdd_self _ _

/-- Witness for C2: a fallback match in a one-entry pool. -/
theorem C2_claim_atomicity_witness :
    "B" ∉ (⟨[("B", ⟨"B", [], [], 0⟩)], [], [], [], [], [], [], [],
        ⟨0, 0, 0, 0, 0, 0, 0, 0, 0, 0⟩⟩ : EngineState).claimed ∧
    "B" ∈ (findMatch "A" []
      ⟨[("B", ⟨"B", [], [], 0⟩)], [], [], [], [], [], [], [],
        ⟨0, 0, 0, 0, 0, 0, 0, 0, 0, 0⟩⟩).1.claimed :=
  C2_claim_atomicity
    ⟨[("B", ⟨"B", [], [], 0⟩)], [], [], [], [], [], [], [],
      ⟨0, 0, 0, 0, 0, 0, 0, 0, 0, 0⟩⟩ "A" [] "B" (by decide)

/-- C5 as stated fails on the code: a `message` with valid text from a
connection that is in no room still mutates the sender's rate-limit window,
because `checkMessageRateLimit` runs before the participancy check. -/
theorem C5_counterexample :
    (opMessage "A" "r1" (JsVal.str "hi".toList) 0 initState).1 ≠ initState := by
  decide

/-- C5 amended: for a valid text and a sender that is not an active
participant of roomId, the message is dropped with a failure acknowledgement
and no `msg` event; the engine state changes only by the sender's rate-limit
update, which the handler performs before the participancy check, and the
only possible emission is the rate-limit notice to the sender. -/
theorem C5_precondition_rate_limit_only (s : EngineState) (sid : SocketId)
    (roomId : RoomId) (tv : JsVal) (t : JsStr) (now : Int)
    (hv : validateMessage tv = some t) (hne : t ≠ [])
    (hroom : ∀ room, alGet s.activeRooms roomId = some room →
      sid ≠ room.user1 ∧ sid ≠ room.user2) :
    (opMessage sid roomId tv now s).1 = (checkMessageRateLimit sid now s).1 ∧
    (opMessage sid roomId tv now s).2.2.success = false ∧
    ∀ e ∈ (opMessage sid roomId tv now s).2.1,
      e = OutEvent.systemMsg sid "Message rate limit exceeded" := by
  have hAR : (checkMessageRateLimit sid now s).1.activeRooms = s.activeRooms := rfl
  simp only [opMessage, hv]
  rw [if_neg hne]
  by_cases hrl : (checkMessageRateLimit sid now s).2 = false
  · rw [if_pos hrl]
    refine ⟨by trivial, by trivial, ?_⟩
    intro e he
    simpa using he
  · rw [if_neg hrl]
    cases hg : alGet (checkMessageRateLimit sid now s).1.activeRooms roomId with
    | none =>
      simp only [hg]
      exact ⟨by trivial, by trivial, by simp⟩
    | some room =>
      have hne' := hroom room (hAR ▸ hg)
      simp only [hg]
      rw [if_pos hne']
      exact ⟨by trivial, by trivial, by simp⟩

/-- Witness for the amended C5 at a concrete no-room message. -/
theorem C5_precondition_rate_limit_only_witness :
    (opMessage "A" "r1" (JsVal.str "hi".toList) 0 initState).1
        = (checkMessageRateLimit "A" 0 initState).1 ∧
    (opMessage "A" "r1" (JsVal.str "hi".toList) 0 initState).2.2.success = false :=
  ⟨(C5_precondition_rate_limit_only initState "A" "r1" (JsVal.str "hi".toList)
      "hi".toList 0 (by decide) (by decide)
      (by intro room hr; simp [alGet] at hr)).1,
   (C5_precondition_rate_limit_only initState "A" "r1" (JsVal.str "hi".toList)
      "hi".toList 0 (by decide) (by decide)
      (by intro room hr; simp [alGet] at hr)).2.1⟩

/-- C6: a `message` whose text is empty or longer than 500 characters is
rejected as a validation error: no event is emitted (the other participant
receives nothing), no engine state is mutated (in particular the room's
`lastActivity` is unchanged), and the acknowledgement reports failure. -/
theorem C6_oversized_message_noop (s : EngineState) (sid : SocketId)
    (roomId : RoomId) (t : JsStr) (now : Int)
    (h : t.length = 0 ∨ t.length > 500) :
    (opMessage sid roomId (JsVal.str t) now s).1 = s ∧
    (opMessage sid roomId (JsVal.str t) now s).2.1 = [] ∧
    (opMessage sid roomId (JsVal.str t) now s).2.2.success = false := by
  have hv : validateMessage (JsVal.str t) = none := by
    show (if t.length = 0 ∨ t.length > 500 then none else some (jsTrim t)) = none
    rw [if_pos h]
  unfold opMessage
  rw [hv]
  exact ⟨rfl, rfl, rfl⟩

/-- Witness for C6 at a 501-character message. -/
theorem C6_oversized_message_noop_witness :
    (opMessage "A" "r1" (JsVal.str (List.replicate 501 'a')) 0 initState).1
      = initState :=
  (C6_oversized_message_noop initState "A" "r1" (List.replicate 501 'a') 0
    (by right; rw [List.length_replicate]; norm_num)).1

/-- C10: in every state reachable from the empty start state by any sequence
of engine operations (find, message, typing, skip, end, disconnect, timer
fires and sweeps), no connectionId is simultaneously a key of the waiting
pool and a key of the connectionId → roomId reverse lookup. -/
theorem C10_waiting_room_disjoint (ops : List Op) (c : SocketId)
    (h : (alGet (runOps ops).waitingUsers c).isSome = true) :
    alGet (runOps ops).userRoomMap c = none := by
  obtain ⟨_, _, hdisj⟩ := runOps_inv ops
  rcases hg : alGet (runOps ops).waitingUsers c with _ | w
  · rw [hg] at h
    simp at h
  · exact hdisj (c, w) (alGet_mem hg)

/-- Witness for C10: after one queuing find, A waits and has no room. -/
theorem C10_waiting_room_disjoint_witness :
    alGet (runOps [Op.find "A" (JsInput.arr []) 0 "r1" 0]).userRoomMap "A" = none :=
  C10_waiting_room_disjoint [Op.find "A" (JsInput.arr []) 0 "r1" 0] "A" (by decide)

end Debate
